import Mathlib

/-!
Verification of the binary provisioning and integrity pipeline of the
`revyl` Python package (repository RevylAI/revyl-cli).

The development shallowly embeds the two Python modules that implement the
pipeline:

* `src/python/revyl/_binary.py` — the verified downloader, integrity gate,
  checksum-manifest parser, platform resolver and entry point.  These are
  embedded at top level under their Python names (`get_platform_info`,
  `_parse_checksums`, `download_binary`, `ensure_binary`, ...).
* `src/python/revyl/__init__.py` — an older, unverified variant of the same
  operations that is still exported as the package's top-level API.  It is
  embedded in the `Legacy` namespace.

Modelling conventions:

* Python strings are modelled as lists of Unicode code points (`PyStr`),
  so that Python's whitespace/line-boundary handling and ASCII case mapping
  can be stated precisely.  `pyStr` injects Lean string literals.
* File contents are lists of bytes (`List Nat`); SHA-256 is an abstract
  parameter `hash : List Nat → PyStr` of every operation that hashes
  (facts such as "hex digests are lowercase" become explicit hypotheses).
* The filesystem visible to the pipeline is the record `FS` (final artifact
  file, sidecar file, scratch temporary file); files can be absent,
  unreadable (an I/O error on access) or present with contents.
* The network is the record `Network`: the response bytes the two remote
  fetches would produce, `none` meaning the fetch raises.
* Each operation returns its Python return value (`Except Err ...`, where
  `Err` mirrors the `RuntimeError` cases), the resulting filesystem, and a
  trace of externally visible events (`Event`) in the order the source
  performs them; temporal claims are read off the trace.
-/

/-! ## Python string primitives -/

/-- A Python string, as its list of Unicode code points. -/
abbrev PyStr := List Nat

/-- Inject a Lean string literal as a `PyStr` (used for concrete values). -/
def pyStr (s : String) : PyStr := s.toList.map Char.toNat

/-- The code points Python's `str.split` / `str.strip` treat as whitespace
(`Py_UNICODE_ISSPACE`). -/
def pySpaceCodes : List Nat :=
  [9, 10, 11, 12, 13, 28, 29, 30, 31, 32, 133, 160, 5760,
   8192, 8193, 8194, 8195, 8196, 8197, 8198, 8199, 8200, 8201, 8202,
   8232, 8233, 8239, 8287, 12288]

/-- Python whitespace test for one code point. -/
def pyIsSpace (c : Nat) : Bool := decide (c ∈ pySpaceCodes)

/-- The code points `str.splitlines` treats as line boundaries. -/
def lineBoundaryCodes : List Nat := [10, 11, 12, 13, 28, 29, 30, 133, 8232, 8233]

/-- Line-boundary test for one code point. -/
def isLineBoundary (c : Nat) : Bool := decide (c ∈ lineBoundaryCodes)

/-- `str.lower` on one code point (ASCII case mapping, which is all the
pipeline relies on: digests and platform names are ASCII). -/
def pyToLower (c : Nat) : Nat := if 65 ≤ c ∧ c ≤ 90 then c + 32 else c

/-- `str.lower`. -/
def pyLower (l : PyStr) : PyStr := l.map pyToLower

/-- `str.strip()`: remove leading and trailing whitespace. -/
def pyStrip (l : PyStr) : PyStr :=
  ((l.dropWhile pyIsSpace).reverse.dropWhile pyIsSpace).reverse

/-- `str.lstrip("*")`: remove leading `*` (code point 42) characters. -/
def pyLstripStar (l : PyStr) : PyStr := l.dropWhile (fun c => c == 42)

/-- `line.split(maxsplit=1)`: at most one split on the first whitespace run;
leading whitespace is discarded, the remainder is kept verbatim. -/
def pySplit1 (l : PyStr) : List PyStr :=
  let l1 := l.dropWhile pyIsSpace
  if l1 = [] then []
  else
    let tok := l1.takeWhile (fun c => !pyIsSpace c)
    let rest := (l1.dropWhile (fun c => !pyIsSpace c)).dropWhile pyIsSpace
    if rest = [] then [tok] else [tok, rest]

/-- Worker for `str.splitlines`: `acc` holds the current line reversed.
`\r\n` (13, 10) counts as a single boundary; a trailing boundary does not
produce a final empty line. -/
def pySplitlinesAux : PyStr → PyStr → List PyStr
  | [], acc => if acc = [] then [] else [acc.reverse]
  | 13 :: 10 :: rest, acc => acc.reverse :: pySplitlinesAux rest []
  | c :: rest, acc =>
    if isLineBoundary c then acc.reverse :: pySplitlinesAux rest []
    else pySplitlinesAux rest (c :: acc)

/-- `str.splitlines`. -/
def pySplitlines (l : PyStr) : List PyStr := pySplitlinesAux l []

/-- Join a list of lines with `\n` (code point 10); used to serialize a
parsed manifest back into the documented manifest text format. -/
def joinNL : List PyStr → PyStr
  | [] => []
  | [l] => l
  | l :: ls => l ++ 10 :: joinNL ls

/-! ## Checksum manifest parser (`_parse_checksums`, `_binary.py` lines 65-82) -/

/-- The body of one iteration of the `_parse_checksums` loop: the entry a
single raw manifest line contributes, if any.  Mirrors lines 67-79 of
`_binary.py`: strip the line; skip it when blank or starting with `#`;
split into at most two whitespace-separated tokens and skip unless exactly
two result; normalize (`filename.lstrip("*").strip()`,
`digest.strip().lower()`); skip when either normalized part is empty. -/
def parseLine (rawLine : PyStr) : Option (PyStr × PyStr) :=
  let line := pyStrip rawLine
  if line = [] then none
  else if line.head? = some 35 then none
  else
    match pySplit1 line with
    | [digest0, filename0] =>
      let filename := pyStrip (pyLstripStar filename0)
      let digest := pyLower (pyStrip digest0)
      if digest ≠ [] ∧ filename ≠ [] then some (filename, digest) else none
    | _ => none

/-- `checksums[filename] = digest` on a Python dict modelled as an ordered
association list: update the value in place if the key is present,
otherwise append the new pair. -/
def updateOrAppend (m : List (PyStr × PyStr)) (f d : PyStr) : List (PyStr × PyStr) :=
  match m with
  | [] => [(f, d)]
  | e :: rest => if e.1 = f then (f, d) :: rest else e :: updateOrAppend rest f d

/-- `checksums.get(name)` on the dict model. -/
def getVal? (m : List (PyStr × PyStr)) (k : PyStr) : Option PyStr :=
  match m with
  | [] => none
  | e :: rest => if e.1 = k then some e.2 else getVal? rest k

/-- `_parse_checksums`: fold the per-line contribution over
`raw_checksums.splitlines()` into the dict. -/
def _parse_checksums (raw_checksums : PyStr) : List (PyStr × PyStr) :=
  (pySplitlines raw_checksums).foldl
    (fun checksums rawLine =>
      match parseLine rawLine with
      | none => checksums
      | some (filename, digest) => updateOrAppend checksums filename digest)
    []

/-- Serialize a parsed manifest back to the documented text format
(one `<digest><whitespace><filename>` entry per line). -/
def serializeManifest (m : List (PyStr × PyStr)) : PyStr :=
  joinNL (m.map fun e => e.2 ++ 32 :: 32 :: e.1)

/-- The filenames (dict keys) of a parsed manifest. -/
def keysOf (m : List (PyStr × PyStr)) : List PyStr := m.map Prod.fst

/-- The dict-building loop of `_parse_checksums`, separated from the line
filtering: fold ready `(filename, digest)` entries into the dict. -/
def buildDict (entries : List (PyStr × PyStr)) (acc : List (PyStr × PyStr)) :
    List (PyStr × PyStr) :=
  entries.foldl (fun m e => updateOrAppend m e.1 e.2) acc

/-- No Python-whitespace code point occurs in the string. -/
def SpaceFree (l : PyStr) : Prop := ∀ c ∈ l, pyIsSpace c = false

/-- No line-boundary code point occurs in the string. -/
def BoundaryFree (l : PyStr) : Prop := ∀ c ∈ l, isLineBoundary c = false

/-- Shape invariant of every `(filename, digest)` entry `_parse_checksums`
produces: both parts nonempty, the filename free of line boundaries and
already stripped, the digest whitespace-free, already lowercase, and not
starting with `#`. -/
structure GoodPair (e : PyStr × PyStr) : Prop where
  fname_ne : e.1 ≠ []
  digest_ne : e.2 ≠ []
  fname_bf : BoundaryFree e.1
  digest_sf : SpaceFree e.2
  fname_stripped : pyStrip e.1 = e.1
  digest_lower : pyLower e.2 = e.2
  digest_head : e.2.head? ≠ some 35

/-! ## Error taxonomy

Every failure in the Python source is a `RuntimeError` with a distinctive
message; the constructors below mirror the distinct `raise` sites.
`downloadFailed` mirrors the wrapper `RuntimeError(f"Failed to download
binary: {exc}")` of `_binary.py` lines 170-176, which wraps whatever
exception escaped the download/verify block. -/

deriving instance DecidableEq for Except

inductive Err : Type
  | unsupportedPlatform (system : PyStr)
  | unsupportedArchitecture (machine : PyStr)
  | manifestUnavailable
  | checksumNotFound (asset : PyStr)
  | checksumMismatch (expected actual : PyStr)
  | networkErr
  | downloadFailed (inner : Err)
deriving DecidableEq, Repr

/-! ## Platform resolver (`get_platform_info`, `_binary.py` lines 23-47;
identical code in `__init__.py` lines 20-53) -/

/-- `get_platform_info`: lowercase the host OS name and machine string, map
them to the canonical `(platform_str, arch_str, ext)` triple, failing closed
on anything unrecognized.  The platform check precedes the architecture
check, as in the source. -/
def get_platform_info (system machine : PyStr) : Except Err (PyStr × PyStr × PyStr) :=
  let s := pyLower system
  let m := pyLower machine
  match (if s = pyStr "darwin" then .ok (pyStr "darwin")
    else if s = pyStr "linux" then .ok (pyStr "linux")
    else if s = pyStr "windows" then .ok (pyStr "windows")
    else .error (Err.unsupportedPlatform s) : Except Err PyStr) with
  | .error e => .error e
  | .ok platform_str =>
    match (if m = pyStr "x86_64" ∨ m = pyStr "amd64" then .ok (pyStr "amd64")
      else if m = pyStr "arm64" ∨ m = pyStr "aarch64" then .ok (pyStr "arm64")
      else .error (Err.unsupportedArchitecture m) : Except Err PyStr) with
    | .error e => .error e
    | .ok arch_str =>
      .ok (platform_str, arch_str, if s = pyStr "windows" then pyStr ".exe" else pyStr "")

/-- `_binary_name` (`_binary.py` lines 50-52): `revyl-{platform}-{arch}{ext}`. -/
def _binary_name (system machine : PyStr) : Except Err PyStr :=
  (get_platform_info system machine).map fun t =>
    pyStr "revyl-" ++ t.1 ++ pyStr "-" ++ t.2.1 ++ t.2.2

/-- `_release_asset_url` (`_binary.py` lines 55-58), with
`REPO = "RevylAI/revyl-cli"` inlined. -/
def _release_asset_url (asset_name : PyStr) (version : PyStr) : PyStr :=
  if version = pyStr "latest" then
    pyStr "https://github.com/RevylAI/revyl-cli/releases/latest/download/" ++ asset_name
  else
    pyStr "https://github.com/RevylAI/revyl-cli/releases/download/" ++ version ++ pyStr "/" ++ asset_name

/-- `get_binary_path` (`_binary.py` lines 138-145): `<home>/.revyl/bin/` plus
the resolved binary name.  The `mkdir(parents=True, exist_ok=True)` side
effect touches neither of the modelled files nor the network and is not
recorded.  Raises whatever `get_platform_info` raises. -/
def get_binary_path (home system machine : PyStr) : Except Err PyStr :=
  (_binary_name system machine).map fun binary_name =>
    home ++ pyStr "/.revyl/bin/" ++ binary_name

/-! ## Filesystem, network and event model -/

/-- State of one file: absent, present with contents, or present but any
access to it raises an `OSError`. -/
inductive File (α : Type) : Type
  | absent
  | ioErr
  | present (contents : α)
deriving DecidableEq, Repr

/-- The files the pipeline touches: the final artifact, its `.sha256`
sidecar, and the scratch temporary file of the current download. -/
structure FS where
  final : File (List Nat)
  sidecar : File PyStr
  temp : Option (List Nat)
deriving DecidableEq, Repr

/-- Responses of the two remote fetches: `checksums.txt` (decoded text) and
the binary asset (bytes); `none` means the fetch raises. -/
structure Network where
  manifest : Option PyStr
  asset : Option (List Nat)
deriving DecidableEq, Repr

/-- Externally visible actions, in the order the source performs them. -/
inductive Event : Type
  | fetchManifest (url : PyStr)
  | fetchAsset (url : PyStr)
  | writeTemp (contents : List Nat)
  | chmodTemp (mode : Nat)
  | unlinkTemp
  | replaceFinal (contents : List Nat)
  | writeSidecar (text : PyStr)
  | writeFinalDirect (contents : List Nat)
  | chmodFinal (mode : Nat)
deriving DecidableEq, Repr

/-- Events that modify the file at the final artifact path. -/
def isFinalWrite : Event → Bool
  | .replaceFinal _ => true
  | .writeFinalDirect _ => true
  | _ => false

/-- The subtrace of writes to the final artifact path. -/
def finalWrites (tr : List Event) : List Event := tr.filter isFinalWrite

/-- Events that access the network. -/
def isNetFetch : Event → Bool
  | .fetchManifest _ => true
  | .fetchAsset _ => true
  | _ => false

/-- Result of one pipeline operation: the Python return value (the final
artifact path on success), the filesystem afterwards, and the event trace. -/
structure DLResult where
  result : Except Err PyStr
  fs : FS
  trace : List Event
deriving DecidableEq, Repr

/-! ## Integrity gate and sidecar (`_binary.py` lines 61-62, 85-90, 115-135) -/

/-- `_write_checksum_sidecar` payload (`_binary.py` lines 115-116): the
sidecar text is `digest.strip().lower() + "\n"`. -/
def sidecarText (digest : PyStr) : PyStr := pyLower (pyStrip digest) ++ [10]

/-- `_is_verified_binary` (`_binary.py` lines 119-135).  `hash` stands for
`_sha256_file`, the full-content streaming SHA-256 of a readable file.
Mirrors the source: absent binary → False; absent sidecar → False; then,
inside `try/except`, read the sidecar (an unreadable sidecar raises and
yields False), normalize its digest, reject an empty digest, recompute the
binary's digest (an unreadable binary raises and yields False) and compare. -/
def _is_verified_binary (hash : List Nat → PyStr) (binFile : File (List Nat))
    (scFile : File PyStr) : Bool :=
  match binFile with
  | .absent => false
  | _ =>
    match scFile with
    | .absent => false
    | .ioErr => false
    | .present text =>
      let expected := pyLower (pyStrip text)
      if expected = [] then false
      else
        match binFile with
        | .present contents => decide (hash contents = expected)
        | _ => false

/-! ## Verified downloader (`_binary.py` lines 93-186) -/

/-- `_fetch_expected_checksum` (`_binary.py` lines 93-106): parse the fetched
manifest and look up the asset's digest; a failed fetch raises
("Failed to download checksums"), and a missing or empty entry raises
("No checksum found for asset ..."). -/
def _fetch_expected_checksum (manifest_response : Option PyStr) (binary_name : PyStr) :
    Except Err PyStr :=
  match manifest_response with
  | none => .error .manifestUnavailable
  | some raw_checksums =>
    match getVal? (_parse_checksums raw_checksums) binary_name with
    | none => .error (.checksumNotFound binary_name)
    | some expected =>
      if expected = [] then .error (.checksumNotFound binary_name) else .ok expected

/-- `download_binary` (`_binary.py` lines 148-186).

Steps, mirroring the source: resolve the platform triple (line 152); build
the asset name and URLs (lines 153-154); fetch and look up the expected
checksum (line 155, the manifest fetch happening inside
`_fetch_expected_checksum`); inside `try`, stream the asset to a fresh
temporary file (`_download_to_temp`, line 163) and hash it (line 164); on a
digest mismatch raise, unlink the temporary file and re-raise wrapped
(lines 165-176); otherwise `chmod 0o755` the temporary file unless
`platform.system() == "Windows"` (lines 179-180, note: the raw, un-lowered
system name is compared), `os.replace` it onto the final path (line 182) and
write the sidecar (line 183), returning the final path (line 186).

A failed asset fetch (`urlopen` raising inside `_download_to_temp`) creates
no temporary file and is re-raised wrapped as `downloadFailed`. -/
def download_binary (hash : List Nat → PyStr) (system machine home version : PyStr)
    (net : Network) (fs : FS) : DLResult :=
  match get_platform_info system machine with
  | .error e => ⟨.error e, fs, []⟩
  | .ok (platform_str, arch_str, ext) =>
    let binary_name := pyStr "revyl-" ++ platform_str ++ pyStr "-" ++ arch_str ++ ext
    let binary_url := _release_asset_url binary_name version
    let checksum_url := _release_asset_url (pyStr "checksums.txt") version
    match _fetch_expected_checksum net.manifest binary_name with
    | .error e => ⟨.error e, fs, [.fetchManifest checksum_url]⟩
    | .ok expected_checksum =>
      let binary_path := home ++ pyStr "/.revyl/bin/" ++ binary_name
      match net.asset with
      | none =>
        ⟨.error (.downloadFailed .networkErr), fs,
         [.fetchManifest checksum_url, .fetchAsset binary_url]⟩
      | some contents =>
        let fs1 : FS := { fs with temp := some contents }
        let tr1 := [Event.fetchManifest checksum_url, .fetchAsset binary_url, .writeTemp contents]
        let actual_checksum := hash contents
        if actual_checksum ≠ expected_checksum then
          ⟨.error (.downloadFailed (.checksumMismatch expected_checksum actual_checksum)),
           { fs1 with temp := none }, tr1 ++ [.unlinkTemp]⟩
        else
          ⟨.ok binary_path,
           { final := .present contents, sidecar := .present (sidecarText expected_checksum),
             temp := none },
           tr1 ++ (if system ≠ pyStr "Windows" then [Event.chmodTemp 0o755] else [])
               ++ [.replaceFinal contents, .writeSidecar (sidecarText expected_checksum)]⟩

/-- `ensure_binary` (`_binary.py` lines 189-196): return the locator path
unchanged when the integrity gate trusts it, otherwise run the verified
download for the `latest` version. -/
def ensure_binary (hash : List Nat → PyStr) (system machine home : PyStr)
    (net : Network) (fs : FS) : DLResult :=
  match get_binary_path home system machine with
  | .error e => ⟨.error e, fs, []⟩
  | .ok binary_path =>
    if _is_verified_binary hash fs.final fs.sidecar then ⟨.ok binary_path, fs, []⟩
    else download_binary hash system machine home (pyStr "latest") net fs

/-! ## Entry point (`main`, `_binary.py` lines 208-222) -/

/-- What happened while provisioning the binary (`ensure_binary` inside
`run_binary`): it returned a path, raised a `RuntimeError` (every
provisioning/download failure in `_binary.py` is a `RuntimeError`), or was
interrupted by `KeyboardInterrupt`. -/
inductive EnsureOutcome : Type
  | provisioned (path : PyStr)
  | err (e : Err)
  | interrupted
deriving DecidableEq, Repr

/-- What happened while running the wrapped binary as a subprocess: it
exited with a status, the user interrupted it, or launching/running it
raised some other (non-`RuntimeError`) exception such as an `OSError`. -/
inductive RunOutcome : Type
  | completed (code : Int)
  | interrupted
  | failed
deriving DecidableEq, Repr

/-- Observable outcome of `main`: the process exit status (`none` when an
exception escapes unhandled), whether a diagnostic went to stderr, and
whether the manual-download release-page pointer was printed. -/
structure MainResult where
  exitCode : Option Int
  diagToStderr : Bool
  printedReleasePointer : Bool
deriving DecidableEq, Repr

/-- `main` (`_binary.py` lines 208-222): the whole of `run_binary` (both the
provisioning and the subprocess call) sits inside one `try` whose handlers
are `KeyboardInterrupt → 130`, `RuntimeError → stderr diagnostic + release
page pointer + 1`, any other `Exception → stderr diagnostic + 1`.
(Named `main_entry` because a bare `main` is reserved in Lean.) -/
def main_entry (e : EnsureOutcome) (r : RunOutcome) : MainResult :=
  match e with
  | .interrupted => ⟨some 130, false, false⟩
  | .err _ => ⟨some 1, true, true⟩
  | .provisioned _ =>
    match r with
    | .completed code => ⟨some code, false, false⟩
    | .interrupted => ⟨some 130, false, false⟩
    | .failed => ⟨some 1, true, false⟩

/-! ## Legacy module (`src/python/revyl/__init__.py`)

The package's top-level module defines its own, older `download_binary`,
`ensure_binary` and `main` (lines 74-156) which do not use the checksum
pipeline.  `get_platform_info` and `get_binary_path` are line-for-line the
same as in `_binary.py` and are shared above. -/

namespace Legacy

/-- `download_binary` (`__init__.py` lines 74-110): resolve the platform,
build the release URL, then `urllib.request.urlretrieve(url, binary_path)` —
the asset bytes are streamed directly to the final artifact path, with no
temporary file, no manifest fetch and no digest verification — then `chmod
0o755` unless `platform.system() == "Windows"`.  Any exception is wrapped
into `RuntimeError("Failed to download binary: ...")`. -/
def download_binary (system machine home version : PyStr) (net : Network) (fs : FS) :
    DLResult :=
  match get_platform_info system machine with
  | .error e => ⟨.error e, fs, []⟩
  | .ok (platform_str, arch_str, ext) =>
    let binary_name := pyStr "revyl-" ++ platform_str ++ pyStr "-" ++ arch_str ++ ext
    let url := _release_asset_url binary_name version
    let binary_path := home ++ pyStr "/.revyl/bin/" ++ binary_name
    match net.asset with
    | none => ⟨.error (.downloadFailed .networkErr), fs, [.fetchAsset url]⟩
    | some contents =>
      ⟨.ok binary_path, { fs with final := .present contents },
       [Event.fetchAsset url, .writeFinalDirect contents]
         ++ (if system ≠ pyStr "Windows" then [Event.chmodFinal 0o755] else [])⟩

/-- `ensure_binary` (`__init__.py` lines 113-125): download only when no file
exists at the final path; any existing file — verified or not, sidecar or
no sidecar — is returned as-is. -/
def ensure_binary (system machine home : PyStr) (net : Network) (fs : FS) : DLResult :=
  match get_binary_path home system machine with
  | .error e => ⟨.error e, fs, []⟩
  | .ok binary_path =>
    if fs.final = .absent then download_binary system machine home (pyStr "latest") net fs
    else ⟨.ok binary_path, fs, []⟩

/-- `main` (`__init__.py` lines 128-152): `ensure_binary()` sits in a `try`
that catches only `RuntimeError` (stderr diagnostic + release page pointer +
exit 1); a `KeyboardInterrupt` or any other exception during provisioning
escapes unhandled.  The subsequent `subprocess.run` sits in a second `try`
with `KeyboardInterrupt → 130` and `Exception → stderr diagnostic + 1`. -/
def main (e : EnsureOutcome) (r : RunOutcome) : MainResult :=
  match e with
  | .interrupted => ⟨none, false, false⟩
  | .err _ => ⟨some 1, true, true⟩
  | .provisioned _ =>
    match r with
    | .completed code => ⟨some code, false, false⟩
    | .interrupted => ⟨some 130, false, false⟩
    | .failed => ⟨some 1, true, false⟩

end Legacy

/-! # Theorems

## Code-point and string lemmas -/

theorem space_of_boundary {c : Nat} (h : isLineBoundary c = true) : pyIsSpace c = true := by
  simp [isLineBoundary, lineBoundaryCodes] at h
  rcases h with h | h | h | h | h | h | h | h | h | h <;> subst h <;> decide

theorem not_boundary_of_not_space {c : Nat} (h : pyIsSpace c = false) :
    isLineBoundary c = false := by
  cases hb : isLineBoundary c with
  | false => rfl
  | true => rw [space_of_boundary hb] at h; cases h

theorem pyToLower_of_upper {c : Nat} (h : 65 ≤ c ∧ c ≤ 90) : pyToLower c = c + 32 := by
  simp [pyToLower, h]

theorem pyToLower_of_not_upper {c : Nat} (h : ¬(65 ≤ c ∧ c ≤ 90)) : pyToLower c = c := by
  simp [pyToLower, h]

theorem pyToLower_idem (c : Nat) : pyToLower (pyToLower c) = pyToLower c := by
  by_cases h : 65 ≤ c ∧ c ≤ 90
  · rw [pyToLower_of_upper h, pyToLower_of_not_upper (by omega)]
  · rw [pyToLower_of_not_upper h, pyToLower_of_not_upper h]

theorem pyIsSpace_pyToLower (c : Nat) : pyIsSpace (pyToLower c) = pyIsSpace c := by
  by_cases h : 65 ≤ c ∧ c ≤ 90
  · rw [pyToLower_of_upper h]
    have h1 : pyIsSpace (c + 32) = false := by
      simp [pyIsSpace, pySpaceCodes]; omega
    have h2 : pyIsSpace c = false := by
      simp [pyIsSpace, pySpaceCodes]; omega
    rw [h1, h2]
  · rw [pyToLower_of_not_upper h]

theorem pyToLower_eq_35 {c : Nat} (h : pyToLower c = 35) : c = 35 := by
  by_cases hc : 65 ≤ c ∧ c ≤ 90
  · rw [pyToLower_of_upper hc] at h; omega
  · rwa [pyToLower_of_not_upper hc] at h

theorem pyLower_idem (l : PyStr) : pyLower (pyLower l) = pyLower l := by
  induction l with
  | nil => rfl
  | cons c t ih =>
    show pyToLower (pyToLower c) :: pyLower (pyLower t) = pyToLower c :: pyLower t
    rw [pyToLower_idem, ih]

theorem spaceFree_pyLower {l : PyStr} (h : SpaceFree l) : SpaceFree (pyLower l) := by
  intro c hc
  simp only [pyLower, List.mem_map] at hc
  obtain ⟨a, ha, rfl⟩ := hc
  rw [pyIsSpace_pyToLower]
  exact h a ha

theorem pyLower_eq_nil {l : PyStr} : pyLower l = [] ↔ l = [] := by
  simp [pyLower]

theorem pyLower_head? (l : PyStr) : (pyLower l).head? = l.head?.map pyToLower := by
  cases l <;> rfl

theorem head?_dropWhile_false {p : Nat → Bool} {l : PyStr} {c : Nat}
    (h : (l.dropWhile p).head? = some c) : p c = false := by
  induction l with
  | nil => simp at h
  | cons a t ih =>
    rw [List.dropWhile_cons] at h
    split at h
    · exact ih h
    · rename_i hp
      simp at h
      subst h
      simpa using hp

theorem boundaryFree_sub {l r : PyStr} (hb : BoundaryFree l) (hs : ∀ c ∈ r, c ∈ l) :
    BoundaryFree r := fun c hc => hb c (hs c hc)

theorem dropWhile_cons_of_neg {p : Nat → Bool} {a : Nat} {l : PyStr} (h : p a = false) :
    List.dropWhile p (a :: l) = a :: l := by
  rw [List.dropWhile_cons]
  simp [h]

theorem mem_of_getLast?_eq {l : PyStr} {c : Nat} (h : l.getLast? = some c) : c ∈ l := by
  rw [← List.head?_reverse] at h
  rw [← List.mem_reverse]
  cases hr : l.reverse with
  | nil => rw [hr] at h; cases h
  | cons x xs =>
    rw [hr] at h
    simp only [List.head?_cons, Option.some.injEq] at h
    simp [h]

theorem spaceFree_boundaryFree {l : PyStr} (h : SpaceFree l) : BoundaryFree l :=
  fun c hc => not_boundary_of_not_space (h c hc)

theorem pyStrip_head? {l : PyStr} {c : Nat} (h : (pyStrip l).head? = some c) :
    pyIsSpace c = false := by
  unfold pyStrip at h
  set A := l.dropWhile pyIsSpace with hA
  set C := A.reverse.dropWhile pyIsSpace with hC
  obtain ⟨t, ht⟩ : C <:+ A.reverse := List.dropWhile_suffix _
  have hpre : A = C.reverse ++ t.reverse := by
    have := congrArg List.reverse ht
    simpa [List.reverse_append] using this.symm
  have hA' : A.head? = some c := by
    rw [hpre, List.head?_append, h, Option.or_some]
  exact head?_dropWhile_false hA'

theorem pyStrip_getLast? {l : PyStr} {c : Nat} (h : (pyStrip l).getLast? = some c) :
    pyIsSpace c = false := by
  unfold pyStrip at h
  rw [List.getLast?_reverse] at h
  exact head?_dropWhile_false h

theorem pyStrip_subset {l : PyStr} : ∀ c ∈ pyStrip l, c ∈ l := by
  intro c hc
  unfold pyStrip at hc
  rw [List.mem_reverse] at hc
  have h1 := ((List.dropWhile_suffix (l := (l.dropWhile pyIsSpace).reverse) pyIsSpace).sublist).mem hc
  rw [List.mem_reverse] at h1
  exact ((List.dropWhile_suffix (l := l) pyIsSpace).sublist).mem h1

theorem pyStrip_eq_self {l : PyStr}
    (h1 : ∀ c, l.head? = some c → pyIsSpace c = false)
    (h2 : ∀ c, l.getLast? = some c → pyIsSpace c = false) : pyStrip l = l := by
  cases l with
  | nil => rfl
  | cons a t =>
    have hD : List.dropWhile pyIsSpace (a :: t) = a :: t :=
      dropWhile_cons_of_neg (h1 a rfl)
    unfold pyStrip
    rw [hD]
    cases hgl : (a :: t).reverse with
    | nil => simp at hgl
    | cons b u =>
      have hb : pyIsSpace b = false := by
        apply h2 b
        rw [← List.head?_reverse, hgl]
        rfl
      rw [dropWhile_cons_of_neg hb, ← hgl, List.reverse_reverse]

theorem pyStrip_spaceFree {l : PyStr} (h : SpaceFree l) : pyStrip l = l := by
  apply pyStrip_eq_self
  · intro c hc
    exact h c (by cases l with | nil => simp at hc | cons a t => simp at hc; simp [hc])
  · intro c hc
    exact h c (mem_of_getLast?_eq hc)

theorem pyStrip_idem (l : PyStr) : pyStrip (pyStrip l) = pyStrip l :=
  pyStrip_eq_self (fun _ h => pyStrip_head? h) (fun _ h => pyStrip_getLast? h)

theorem pyStrip_append_nl {l : PyStr}
    (h1 : ∀ c, l.head? = some c → pyIsSpace c = false)
    (h2 : ∀ c, l.getLast? = some c → pyIsSpace c = false) :
    pyStrip (l ++ [10]) = l := by
  cases l with
  | nil => decide
  | cons a t =>
    have hD : List.dropWhile pyIsSpace (a :: t ++ [10]) = a :: t ++ [10] := by
      rw [show a :: t ++ [10] = a :: (t ++ [10]) from rfl]
      exact dropWhile_cons_of_neg (h1 a rfl)
    unfold pyStrip
    rw [hD, List.reverse_append]
    show ((10 :: (a :: t).reverse).dropWhile pyIsSpace).reverse = a :: t
    rw [List.dropWhile_cons, if_pos (by decide)]
    cases hgl : (a :: t).reverse with
    | nil => simp at hgl
    | cons b u =>
      have hb : pyIsSpace b = false := by
        apply h2 b
        rw [← List.head?_reverse, hgl]
        rfl
      rw [dropWhile_cons_of_neg hb, ← hgl, List.reverse_reverse]

/-! ## `pySplit1` lemmas -/

theorem takeWhile_append_all {p : Nat → Bool} {d : PyStr} (h : ∀ c ∈ d, p c = true)
    (r : PyStr) : List.takeWhile p (d ++ r) = d ++ List.takeWhile p r := by
  induction d with
  | nil => rfl
  | cons a t ih =>
    rw [List.cons_append, List.takeWhile_cons, if_pos (h a (by simp)), ih (fun c hc => h c (by simp [hc])), List.cons_append]

theorem dropWhile_append_all {p : Nat → Bool} {d : PyStr} (h : ∀ c ∈ d, p c = true)
    (r : PyStr) : List.dropWhile p (d ++ r) = List.dropWhile p r := by
  induction d with
  | nil => rfl
  | cons a t ih =>
    rw [List.cons_append, List.dropWhile_cons, if_pos (h a (by simp))]
    exact ih (fun c hc => h c (by simp [hc]))

/-- Decomposition of a successful two-token split. -/
theorem pySplit1_eq_two {l d f : PyStr} (h : pySplit1 l = [d, f]) :
    l.dropWhile pyIsSpace ≠ [] ∧
    d = (l.dropWhile pyIsSpace).takeWhile (fun c => !pyIsSpace c) ∧
    f = ((l.dropWhile pyIsSpace).dropWhile (fun c => !pyIsSpace c)).dropWhile pyIsSpace ∧
    f ≠ [] := by
  unfold pySplit1 at h
  dsimp only at h
  split at h
  · cases h
  · rename_i hne
    split at h
    · cases h
    · rename_i hrest
      injection h with h1 h2
      injection h2 with h2 _
      exact ⟨hne, h1.symm, h2.symm, by rw [← h2]; exact hrest⟩

theorem pySplit1_tok_spaceFree {l d f : PyStr} (h : pySplit1 l = [d, f]) : SpaceFree d := by
  obtain ⟨-, hd, -, -⟩ := pySplit1_eq_two h
  intro c hc
  rw [hd] at hc
  simpa using List.mem_takeWhile_imp hc

theorem pySplit1_tok_ne {l d f : PyStr} (h : pySplit1 l = [d, f]) : d ≠ [] := by
  obtain ⟨hne, hd, -, -⟩ := pySplit1_eq_two h
  cases hD : l.dropWhile pyIsSpace with
  | nil => exact absurd hD hne
  | cons a t =>
    have ha : pyIsSpace a = false := by
      apply head?_dropWhile_false (l := l)
      rw [hD]; rfl
    rw [hd, hD, List.takeWhile_cons, if_pos (by simp [ha])]
    simp

theorem pySplit1_rest_head {l d f : PyStr} (h : pySplit1 l = [d, f]) :
    ∀ c, f.head? = some c → pyIsSpace c = false := by
  obtain ⟨-, -, hf, -⟩ := pySplit1_eq_two h
  intro c hc
  rw [hf] at hc
  exact head?_dropWhile_false hc

theorem pySplit1_rest_suffix {l d f : PyStr} (h : pySplit1 l = [d, f]) : f <:+ l := by
  obtain ⟨-, -, hf, -⟩ := pySplit1_eq_two h
  rw [hf]
  exact ((List.dropWhile_suffix _).trans (List.dropWhile_suffix _)).trans (List.dropWhile_suffix _)

theorem pySplit1_tok_head? {l d f : PyStr} (h : pySplit1 l = [d, f]) :
    d.head? = (l.dropWhile pyIsSpace).head? := by
  obtain ⟨hne, hd, -, -⟩ := pySplit1_eq_two h
  cases hD : l.dropWhile pyIsSpace with
  | nil => exact absurd hD hne
  | cons a t =>
    have ha : pyIsSpace a = false := by
      apply head?_dropWhile_false (l := l)
      rw [hD]; rfl
    rw [hd, hD, List.takeWhile_cons, if_pos (by simp [ha])]
    rfl

theorem pySplit1_mem_tok {l d f : PyStr} (h : pySplit1 l = [d, f]) : ∀ c ∈ d, c ∈ l := by
  obtain ⟨-, hd, -, -⟩ := pySplit1_eq_two h
  intro c hc
  rw [hd] at hc
  exact ((List.takeWhile_sublist _).trans (List.dropWhile_suffix pyIsSpace).sublist).mem hc

/-- Re-splitting a serialized `digest ++ "  " ++ filename` line. -/
theorem pySplit1_append {d f : PyStr} (hd : d ≠ []) (hdsf : SpaceFree d) (hf : f ≠ [])
    (hfh : ∀ c, f.head? = some c → pyIsSpace c = false) :
    pySplit1 (d ++ 32 :: 32 :: f) = [d, f] := by
  have hfD : List.dropWhile pyIsSpace f = f := by
    cases f with
    | nil => rfl
    | cons b u => exact dropWhile_cons_of_neg (hfh b rfl)
  have hD : List.dropWhile pyIsSpace (d ++ 32 :: 32 :: f) = d ++ 32 :: 32 :: f := by
    cases d with
    | nil => exact absurd rfl hd
    | cons a t =>
      rw [List.cons_append]
      exact dropWhile_cons_of_neg (hdsf a (by simp))
  have htok : List.takeWhile (fun c => !pyIsSpace c) (d ++ 32 :: 32 :: f) = d := by
    rw [takeWhile_append_all (fun c hc => by simp [hdsf c hc])]
    rw [List.takeWhile_cons, if_neg (by decide)]
    simp
  have hrest : List.dropWhile pyIsSpace
      (List.dropWhile (fun c => !pyIsSpace c) (d ++ 32 :: 32 :: f)) = f := by
    rw [dropWhile_append_all (fun c hc => by simp [hdsf c hc])]
    rw [List.dropWhile_cons, if_neg (by decide), List.dropWhile_cons, if_pos (by decide),
      List.dropWhile_cons, if_pos (by decide), hfD]
  unfold pySplit1
  rw [hD]
  rw [if_neg (by simp [hd]), htok, hrest, if_neg hf]

/-! ## `parseLine` lemmas -/

theorem parseLine_blank {rawLine : PyStr} (h : pyStrip rawLine = []) :
    parseLine rawLine = none := by
  unfold parseLine
  dsimp only
  rw [if_pos h]

theorem parseLine_comment {rawLine : PyStr} (h : (pyStrip rawLine).head? = some 35) :
    parseLine rawLine = none := by
  simp [parseLine, h]

theorem parseLine_not_two {rawLine : PyStr}
    (h : ∀ d f, pySplit1 (pyStrip rawLine) ≠ [d, f]) : parseLine rawLine = none := by
  unfold parseLine
  dsimp only
  split
  · rfl
  · split
    · rfl
    · split
      · rename_i d0 f0 hsp
        exact absurd hsp (h d0 f0)
      · rfl

theorem parseLine_empty_fname {rawLine d f : PyStr}
    (hsp : pySplit1 (pyStrip rawLine) = [d, f]) (hf : pyStrip (pyLstripStar f) = []) :
    parseLine rawLine = none := by
  unfold parseLine
  dsimp only
  split
  · rfl
  · split
    · rfl
    · split
      · rename_i d0 f0 hsp0
        rw [hsp0] at hsp
        injection hsp with h1 h2
        injection h2 with h2 _
        subst h1; subst h2
        rw [if_neg]
        intro hcon
        exact hcon.2 hf
      · rfl

/-- The stripped line has no leading whitespace to drop. -/
theorem dropWhile_pyStrip (rawLine : PyStr) :
    List.dropWhile pyIsSpace (pyStrip rawLine) = pyStrip rawLine := by
  cases hs : pyStrip rawLine with
  | nil => rfl
  | cons a t =>
    refine dropWhile_cons_of_neg (pyStrip_head? (l := rawLine) ?_)
    rw [hs]; rfl

theorem parseLine_some {rawLine d f : PyStr}
    (hne : pyStrip rawLine ≠ []) (hh : (pyStrip rawLine).head? ≠ some 35)
    (hsp : pySplit1 (pyStrip rawLine) = [d, f]) (hf : pyStrip (pyLstripStar f) ≠ []) :
    parseLine rawLine = some (pyStrip (pyLstripStar f), pyLower (pyStrip d)) := by
  have hdsf : SpaceFree d := pySplit1_tok_spaceFree hsp
  have hdne : d ≠ [] := pySplit1_tok_ne hsp
  have hdig : pyLower (pyStrip d) ≠ [] := by
    rw [pyStrip_spaceFree hdsf]
    intro hcon
    exact hdne (pyLower_eq_nil.mp hcon)
  unfold parseLine
  dsimp only
  rw [if_neg hne, if_neg hh, hsp]
  dsimp only
  rw [if_pos ⟨hdig, hf⟩]

/-- Entries produced from a boundary-free raw line satisfy the parser's
shape invariant. -/
theorem parseLine_goodPair {rawLine : PyStr} (hbf : BoundaryFree rawLine) {e : PyStr × PyStr}
    (h : parseLine rawLine = some e) : GoodPair e := by
  by_cases hne : pyStrip rawLine = []
  · rw [parseLine_blank hne] at h; cases h
  by_cases hh : (pyStrip rawLine).head? = some 35
  · rw [parseLine_comment hh] at h; cases h
  by_cases hsp : ∃ d f, pySplit1 (pyStrip rawLine) = [d, f]
  case neg =>
    rw [parseLine_not_two (fun d f hdf => hsp ⟨d, f, hdf⟩)] at h
    cases h
  obtain ⟨d, f, hsp⟩ := hsp
  by_cases hf : pyStrip (pyLstripStar f) = []
  · rw [parseLine_empty_fname hsp hf] at h; cases h
  rw [parseLine_some hne hh hsp hf] at h
  injection h with h
  subst h
  have hdsf : SpaceFree d := pySplit1_tok_spaceFree hsp
  have hdne : d ≠ [] := pySplit1_tok_ne hsp
  have hstrip_d : pyStrip d = d := pyStrip_spaceFree hdsf
  refine ⟨hf, ?_, ?_, ?_, ?_, ?_, ?_⟩
  · rw [hstrip_d]
    intro hcon
    exact hdne (pyLower_eq_nil.mp hcon)
  · apply boundaryFree_sub hbf
    intro c hc
    have h1 : c ∈ pyLstripStar f := pyStrip_subset c hc
    have h2 : c ∈ f := (List.dropWhile_suffix _).sublist.mem h1
    have h3 : c ∈ pyStrip rawLine := (pySplit1_rest_suffix hsp).sublist.mem h2
    exact pyStrip_subset c h3
  · rw [hstrip_d]
    exact spaceFree_pyLower hdsf
  · exact pyStrip_idem _
  · rw [hstrip_d]; exact pyLower_idem d
  · rw [hstrip_d]
    have hdh : d.head? = (pyStrip rawLine).head? := by
      rw [pySplit1_tok_head? hsp, dropWhile_pyStrip]
    cases hd0 : d with
    | nil => exact absurd hd0 hdne
    | cons a t =>
      rw [pyLower_head?]
      simp only [List.head?_cons, Option.map_some]
      intro hcon
      injection hcon with hcon
      apply hh
      rw [← hdh, hd0]
      simp [pyToLower_eq_35 hcon]

/-- Re-parsing a serialized entry line reproduces the entry, provided the
filename does not begin with `*`. -/
theorem parseLine_serialized {e : PyStr × PyStr} (hg : GoodPair e)
    (hstar : e.1.head? ≠ some 42) : parseLine (e.2 ++ 32 :: 32 :: e.1) = some e := by
  obtain ⟨fne, dne, fbf, dsf, fstr, dlow, dhead⟩ := hg
  have hfh : ∀ c, e.1.head? = some c → pyIsSpace c = false := by
    intro c hc
    apply pyStrip_head? (l := e.1)
    rw [fstr]; exact hc
  have hsp : pySplit1 (e.2 ++ 32 :: 32 :: e.1) = [e.2, e.1] :=
    pySplit1_append dne dsf fne hfh
  have hstrip_line : pyStrip (e.2 ++ 32 :: 32 :: e.1) = e.2 ++ 32 :: 32 :: e.1 := by
    apply pyStrip_eq_self
    · intro c hc
      rw [List.head?_append] at hc
      cases hd : e.2 with
      | nil => exact absurd hd dne
      | cons a t =>
        rw [hd] at hc
        simp only [List.head?_cons, Option.or_some, Option.some.injEq] at hc
        subst hc
        exact dsf a (by simp [hd])
    · intro c hc
      have : (e.2 ++ 32 :: 32 :: e.1).getLast? = e.1.getLast? := by
        rw [show (32 : Nat) :: 32 :: e.1 = [32, 32] ++ e.1 from rfl, ← List.append_assoc]
        rw [List.getLast?_append]
        cases hgl : e.1.getLast? with
        | none => rw [List.getLast?_eq_none_iff] at hgl; exact absurd hgl fne
        | some b => rfl
      rw [this] at hc
      apply pyStrip_getLast? (l := e.1)
      rw [fstr]; exact hc
  have hlstar : pyLstripStar e.1 = e.1 := by
    cases hf0 : e.1 with
    | nil => rfl
    | cons a t =>
      have ha : (a == 42) = false := by
        rw [beq_eq_false_iff_ne]
        intro hcon
        apply hstar
        rw [hf0, hcon]
        rfl
      exact dropWhile_cons_of_neg ha
  have hfname : pyStrip (pyLstripStar e.1) = e.1 := by rw [hlstar, fstr]
  have hdig : pyLower (pyStrip e.2) = e.2 := by
    rw [pyStrip_spaceFree dsf, dlow]
  have hne : pyStrip (e.2 ++ 32 :: 32 :: e.1) ≠ [] := by
    rw [hstrip_line]
    cases hd : e.2 with
    | nil => exact absurd hd dne
    | cons a t => simp
  have hh : (pyStrip (e.2 ++ 32 :: 32 :: e.1)).head? ≠ some 35 := by
    rw [hstrip_line, List.head?_append]
    cases hd : e.2 with
    | nil => exact absurd hd dne
    | cons a t =>
      simp only [List.head?_cons, Option.or_some]
      intro hcon
      apply dhead
      rw [hd]
      exact hcon
  have := parseLine_some hne hh (by rw [hstrip_line]; exact hsp) (by rw [hfname]; exact fne)
  rw [this, hfname, hdig]

/-! ## Dict lemmas -/

theorem getVal?_updateOrAppend (m : List (PyStr × PyStr)) (f d k : PyStr) :
    getVal? (updateOrAppend m f d) k = if k = f then some d else getVal? m k := by
  induction m with
  | nil =>
    by_cases hk : k = f
    · subst hk
      simp [updateOrAppend, getVal?]
    · simp [updateOrAppend, getVal?, hk, Ne.symm hk]
  | cons e rest ih =>
    by_cases he : e.1 = f
    · by_cases hk : k = f
      · subst hk
        simp [updateOrAppend, he, getVal?]
      · have hek : e.1 ≠ k := by rw [he]; exact Ne.symm hk
        simp [updateOrAppend, he, getVal?, hk, hek, Ne.symm hk]
    · by_cases hek : e.1 = k
      · have hk : k ≠ f := fun hc => he (hek.trans hc)
        simp [updateOrAppend, he, getVal?, hek, hk]
      · simp [updateOrAppend, he, getVal?, hek, ih]

theorem mem_updateOrAppend {m : List (PyStr × PyStr)} {f d : PyStr} {e : PyStr × PyStr}
    (h : e ∈ updateOrAppend m f d) : e ∈ m ∨ e = (f, d) := by
  induction m with
  | nil =>
    unfold updateOrAppend at h
    simp at h
    exact Or.inr h
  | cons e0 rest ih =>
    unfold updateOrAppend at h
    split at h
    · rcases List.mem_cons.mp h with h1 | h1
      · exact Or.inr h1
      · exact Or.inl (List.mem_cons.mpr (Or.inr h1))
    · rcases List.mem_cons.mp h with h1 | h1
      · exact Or.inl (List.mem_cons.mpr (Or.inl h1))
      · rcases ih h1 with h2 | h2
        · exact Or.inl (List.mem_cons.mpr (Or.inr h2))
        · exact Or.inr h2

theorem keysOf_updateOrAppend (m : List (PyStr × PyStr)) (f d : PyStr) :
    keysOf (updateOrAppend m f d) = keysOf m ∨
    keysOf (updateOrAppend m f d) = keysOf m ++ [f] := by
  induction m with
  | nil => exact Or.inr rfl
  | cons e rest ih =>
    unfold updateOrAppend
    by_cases he : e.1 = f
    · rw [if_pos he]
      left
      simp [keysOf, he]
    · rw [if_neg he]
      rcases ih with h | h
      · left
        simp only [keysOf, List.map_cons] at h ⊢
        rw [h]
      · right
        simp only [keysOf, List.map_cons] at h ⊢
        rw [h]
        rfl

theorem nodup_keysOf_updateOrAppend {m : List (PyStr × PyStr)} {f d : PyStr}
    (h : (keysOf m).Nodup) : (keysOf (updateOrAppend m f d)).Nodup := by
  induction m with
  | nil => simp [updateOrAppend, keysOf]
  | cons e rest ih =>
    have h1 : e.1 ∉ keysOf rest := by
      have h' := h
      simp only [keysOf, List.map_cons, List.nodup_cons] at h'
      exact h'.1
    have h2 : (keysOf rest).Nodup := by
      simp only [keysOf, List.map_cons, List.nodup_cons] at h
      exact h.2
    unfold updateOrAppend
    by_cases he : e.1 = f
    · rw [if_pos he]
      have hk : keysOf ((f, d) :: rest) = f :: keysOf rest := rfl
      rw [hk]
      exact List.nodup_cons.mpr ⟨by rw [← he]; exact h1, h2⟩
    · rw [if_neg he]
      have hk : keysOf (e :: updateOrAppend rest f d) = e.1 :: keysOf (updateOrAppend rest f d) := rfl
      rw [hk]
      refine List.nodup_cons.mpr ⟨?_, ih h2⟩
      intro hcon
      rcases keysOf_updateOrAppend rest f d with hk2 | hk2
      · rw [hk2] at hcon
        exact h1 hcon
      · rw [hk2] at hcon
        rcases List.mem_append.mp hcon with hc | hc
        · exact h1 hc
        · simp at hc
          exact he hc

theorem updateOrAppend_of_not_mem {m : List (PyStr × PyStr)} {f : PyStr}
    (h : f ∉ keysOf m) (d : PyStr) : updateOrAppend m f d = m ++ [(f, d)] := by
  induction m with
  | nil => rfl
  | cons e rest ih =>
    unfold updateOrAppend
    have he : e.1 ≠ f := by
      intro hc
      exact h (by simp [keysOf, hc])
    rw [if_neg he, ih (fun hc => h (by simp [keysOf] at hc ⊢; exact Or.inr hc))]
    rfl

theorem getVal?_mem {m : List (PyStr × PyStr)} {k v : PyStr} (h : getVal? m k = some v) :
    (k, v) ∈ m := by
  induction m with
  | nil => cases h
  | cons e rest ih =>
    unfold getVal? at h
    split at h
    · rename_i he
      injection h with h
      refine List.mem_cons.mpr (Or.inl ?_)
      rw [← he, ← h]
    · exact List.mem_cons.mpr (Or.inr (ih h))

/-! ## `pySplitlines` lemmas -/

theorem pySplitlinesAux_cons' {c : Nat} {rest : PyStr}
    (hnc : ∀ r, c = 13 → rest = 10 :: r → False) (acc : PyStr) :
    pySplitlinesAux (c :: rest) acc =
      if isLineBoundary c then acc.reverse :: pySplitlinesAux rest []
      else pySplitlinesAux rest (c :: acc) := by
  rw [pySplitlinesAux.eq_def]
  split
  · rename_i heq
    cases heq
  · rename_i _ heq
    injection heq with h1 h2
    exact (hnc _ h1 h2).elim
  · rename_i heq
    injection heq with h1 h2
    subst h1
    subst h2
    rfl

theorem pySplitlinesAux_cons {c : Nat} (hc : c ≠ 13) (rest acc : PyStr) :
    pySplitlinesAux (c :: rest) acc =
      if isLineBoundary c then acc.reverse :: pySplitlinesAux rest []
      else pySplitlinesAux rest (c :: acc) :=
  pySplitlinesAux_cons' (fun _ h1 _ => hc h1) acc

/-- Every line `splitlines` produces is free of line-boundary characters. -/
theorem pySplitlinesAux_boundaryFree :
    ∀ (l acc : PyStr), (∀ c ∈ acc, isLineBoundary c = false) →
      ∀ line ∈ pySplitlinesAux l acc, BoundaryFree line := by
  intro l acc
  induction l, acc using pySplitlinesAux.induct with
  | case1 =>
    intro _ line hline
    simp [pySplitlinesAux] at hline
  | case2 acc hne =>
    intro hacc line hline
    simp [pySplitlinesAux, hne] at hline
    subst hline
    intro c hc
    exact hacc c (List.mem_reverse.mp hc)
  | case3 rest acc ih =>
    intro hacc line hline
    rw [show pySplitlinesAux (13 :: 10 :: rest) acc = acc.reverse :: pySplitlinesAux rest []
      from rfl] at hline
    rcases List.mem_cons.mp hline with h | h
    · subst h
      intro c hc
      exact hacc c (List.mem_reverse.mp hc)
    · exact ih (by simp) line h
  | case4 c rest acc hnc hb ih =>
    intro hacc line hline
    rw [pySplitlinesAux_cons' hnc, if_pos hb] at hline
    rcases List.mem_cons.mp hline with h | h
    · subst h
      intro c' hc'
      exact hacc c' (List.mem_reverse.mp hc')
    · exact ih (by simp) line h
  | case5 c rest acc hnc hnb ih =>
    intro hacc line hline
    rw [pySplitlinesAux_cons' hnc, if_neg hnb] at hline
    refine ih ?_ line hline
    intro c' hc'
    rcases List.mem_cons.mp hc' with h | h
    · subst h
      exact Bool.not_eq_true _ ▸ (by simpa using hnb)
    · exact hacc c' h

/-- A boundary-free string splits into at most one line. -/
theorem pySplitlinesAux_noBoundary :
    ∀ (l : PyStr), BoundaryFree l → ∀ (acc : PyStr),
      pySplitlinesAux l acc = if acc = [] ∧ l = [] then [] else [acc.reverse ++ l] := by
  intro l
  induction l with
  | nil =>
    intro _ acc
    by_cases h : acc = []
    · simp [pySplitlinesAux, h]
    · simp [pySplitlinesAux, h]
  | cons c t ih =>
    intro hbf acc
    have hb : isLineBoundary c = false := hbf c (by simp)
    have hc13 : c ≠ 13 := by
      intro h
      rw [h] at hb
      cases hb
    rw [pySplitlinesAux_cons hc13, if_neg (by simp [hb])]
    rw [ih (fun x hx => hbf x (by simp [hx])) (c :: acc)]
    rw [if_neg (by simp)]
    rw [if_neg (by simp)]
    simp

/-- Splitting `l ++ "\n" ++ t` for boundary-free `l` peels off the line `l`. -/
theorem pySplitlinesAux_append_nl :
    ∀ (l : PyStr), BoundaryFree l → ∀ (t acc : PyStr),
      pySplitlinesAux (l ++ 10 :: t) acc = (acc.reverse ++ l) :: pySplitlinesAux t [] := by
  intro l
  induction l with
  | nil =>
    intro _ t acc
    rw [List.nil_append, pySplitlinesAux_cons (by decide), if_pos (by decide)]
    simp
  | cons c cs ih =>
    intro hbf t acc
    have hb : isLineBoundary c = false := hbf c (by simp)
    have hc13 : c ≠ 13 := by
      intro h
      rw [h] at hb
      cases hb
    rw [List.cons_append, pySplitlinesAux_cons hc13, if_neg (by simp [hb])]
    rw [ih (fun x hx => hbf x (by simp [hx])) t (c :: acc)]
    simp

/-- Serialization round trip at the line level: splitting a `"\n"`-join of
nonempty boundary-free lines recovers exactly those lines. -/
theorem pySplitlines_joinNL :
    ∀ (ls : List PyStr), (∀ l ∈ ls, l ≠ [] ∧ BoundaryFree l) →
      pySplitlines (joinNL ls) = ls := by
  intro ls
  induction ls with
  | nil => intro _; rfl
  | cons l ls ih =>
    intro h
    cases ls with
    | nil =>
      show pySplitlinesAux l [] = [l]
      rw [pySplitlinesAux_noBoundary l (h l (by simp)).2 []]
      rw [if_neg (by simp [(h l (by simp)).1])]
      simp
    | cons l2 ls2 =>
      show pySplitlinesAux (l ++ 10 :: joinNL (l2 :: ls2)) [] = l :: l2 :: ls2
      rw [pySplitlinesAux_append_nl l (h l (by simp)).2 (joinNL (l2 :: ls2)) []]
      rw [show pySplitlinesAux (joinNL (l2 :: ls2)) [] = pySplitlines (joinNL (l2 :: ls2))
        from rfl]
      rw [ih (fun x hx => h x (by simp [hx]))]
      simp

/-! ## `_parse_checksums` structure lemmas -/

/-- The parsing loop is the dict-build fold over the per-line entries. -/
theorem parse_foldl_eq_buildDict :
    ∀ (lines : List PyStr) (acc : List (PyStr × PyStr)),
      lines.foldl
        (fun checksums rawLine =>
          match parseLine rawLine with
          | none => checksums
          | some (filename, digest) => updateOrAppend checksums filename digest)
        acc = buildDict (lines.filterMap parseLine) acc := by
  intro lines
  induction lines with
  | nil => intro acc; rfl
  | cons l ls ih =>
    intro acc
    rw [List.foldl_cons, List.filterMap_cons]
    cases hp : parseLine l with
    | none =>
      dsimp only
      exact ih acc
    | some e =>
      obtain ⟨f, d⟩ := e
      dsimp only
      exact ih (updateOrAppend acc f d)

theorem parse_eq_buildDict (raw : PyStr) :
    _parse_checksums raw = buildDict ((pySplitlines raw).filterMap parseLine) [] :=
  parse_foldl_eq_buildDict (pySplitlines raw) []

/-- Lookup in the built dict: the value of the last matching entry wins,
falling back to the accumulator. -/
theorem getVal?_buildDict :
    ∀ (entries : List (PyStr × PyStr)) (acc : List (PyStr × PyStr)) (k : PyStr),
      getVal? (buildDict entries acc) k =
        ((entries.reverse.find? (fun e => e.1 == k)).map Prod.snd).or (getVal? acc k) := by
  intro entries
  induction entries with
  | nil =>
    intro acc k
    simp [buildDict]
  | cons e es ih =>
    intro acc k
    rw [show buildDict (e :: es) acc = buildDict es (updateOrAppend acc e.1 e.2) from rfl]
    rw [ih, getVal?_updateOrAppend]
    rw [List.reverse_cons, List.find?_append]
    cases hf : es.reverse.find? (fun x => x.1 == k) with
    | some x => simp
    | none =>
      simp only [Option.none_or]
      by_cases hk : e.1 = k
      · have hbe : (e.1 == k) = true := by simp [hk]
        rw [show List.find? (fun x => x.1 == k) [e] = some e by simp [List.find?, hbe]]
        rw [if_pos hk.symm]
        simp
      · have hbe : (e.1 == k) = false := by simp [hk]
        rw [show List.find? (fun x => x.1 == k) [e] = none by simp [List.find?, hbe]]
        rw [if_neg (fun hc => hk hc.symm)]

/-- Lookup in a parsed manifest is the digest of the last line naming the
filename. -/
theorem getVal?_parse (raw : PyStr) (k : PyStr) :
    getVal? (_parse_checksums raw) k =
      (((pySplitlines raw).filterMap parseLine).reverse.find?
        (fun e => e.1 == k)).map Prod.snd := by
  rw [parse_eq_buildDict, getVal?_buildDict]
  rw [show getVal? [] k = none from rfl]
  cases ((pySplitlines raw).filterMap parseLine).reverse.find? (fun e => e.1 == k) <;> rfl

theorem mem_buildDict :
    ∀ (entries : List (PyStr × PyStr)) (acc : List (PyStr × PyStr)) (e : PyStr × PyStr),
      e ∈ buildDict entries acc → e ∈ acc ∨ e ∈ entries := by
  intro entries
  induction entries with
  | nil => intro acc e h; exact Or.inl h
  | cons e0 es ih =>
    intro acc e h
    rcases ih (updateOrAppend acc e0.1 e0.2) e h with h1 | h1
    · rcases mem_updateOrAppend h1 with h2 | h2
      · exact Or.inl h2
      · right
        rw [h2]
        simp
    · right
      simp [h1]

theorem nodup_keysOf_buildDict :
    ∀ (entries : List (PyStr × PyStr)) (acc : List (PyStr × PyStr)),
      (keysOf acc).Nodup → (keysOf (buildDict entries acc)).Nodup := by
  intro entries
  induction entries with
  | nil => intro acc h; exact h
  | cons e es ih =>
    intro acc h
    exact ih (updateOrAppend acc e.1 e.2) (nodup_keysOf_updateOrAppend h)

/-- Every entry of a parsed manifest satisfies the shape invariant. -/
theorem parse_goodPair {raw : PyStr} {e : PyStr × PyStr} (h : e ∈ _parse_checksums raw) :
    GoodPair e := by
  rw [parse_eq_buildDict] at h
  rcases mem_buildDict _ _ _ h with h1 | h1
  · cases h1
  · obtain ⟨line, hline, hp⟩ := List.mem_filterMap.mp h1
    exact parseLine_goodPair
      (pySplitlinesAux_boundaryFree raw [] (by simp) line hline) hp

theorem parse_keys_nodup (raw : PyStr) : (keysOf (_parse_checksums raw)).Nodup := by
  rw [parse_eq_buildDict]
  exact nodup_keysOf_buildDict _ [] (by simp [keysOf])

/-- Folding entries with fresh, pairwise-distinct keys appends them. -/
theorem buildDict_disjoint :
    ∀ (entries : List (PyStr × PyStr)) (acc : List (PyStr × PyStr)),
      (keysOf entries).Nodup → (∀ k ∈ keysOf entries, k ∉ keysOf acc) →
      buildDict entries acc = acc ++ entries := by
  intro entries
  induction entries with
  | nil => intro acc _ _; simp [buildDict]
  | cons e es ih =>
    intro acc hnd hdis
    rw [show buildDict (e :: es) acc = buildDict es (updateOrAppend acc e.1 e.2) from rfl]
    rw [updateOrAppend_of_not_mem (hdis e.1 (by simp [keysOf])) e.2]
    rw [ih (acc ++ [(e.1, e.2)])]
    · simp
    · simp only [keysOf, List.map_cons, List.nodup_cons] at hnd
      exact hnd.2
    · intro k hk
      simp only [keysOf, List.map_append] at *
      intro hcon
      rcases List.mem_append.mp hcon with hc | hc
      · exact hdis k (by simp only [keysOf, List.map_cons]; exact List.mem_cons.mpr (Or.inr hk)) hc
      · simp only [List.map_cons, List.map_nil, List.mem_cons] at hc
        rcases hc with hc | hc
        · simp only [keysOf, List.map_cons, List.nodup_cons] at hnd
          exact hnd.1 (hc ▸ hk)
        · cases hc

/-! ## Permutation invariance and serialization round trip -/

theorem find?_perm_of_nodup {l1 l2 : List (PyStr × PyStr)} (hp : l1.Perm l2)
    (hnd : (keysOf l1).Nodup) (k : PyStr) :
    l1.find? (fun e => e.1 == k) = l2.find? (fun e => e.1 == k) := by
  have hnd' : (l1.map Prod.fst).Nodup := hnd
  cases h1 : l1.find? (fun e => e.1 == k) with
  | none =>
    cases h2 : l2.find? (fun e => e.1 == k) with
    | none => rfl
    | some x =>
      exfalso
      have hx2 : x ∈ l2 := List.mem_of_find?_eq_some h2
      have hpx : x.1 = k := by
        have := List.find?_some h2
        simpa using this
      exact (List.find?_eq_none.mp h1 x (hp.mem_iff.mpr hx2)) (by simpa using hpx)
  | some x =>
    have hx1 : x ∈ l1 := List.mem_of_find?_eq_some h1
    have hpx : x.1 = k := by
      have := List.find?_some h1
      simpa using this
    cases h2 : l2.find? (fun e => e.1 == k) with
    | none =>
      exfalso
      exact (List.find?_eq_none.mp h2 x (hp.mem_iff.mp hx1)) (by simpa using hpx)
    | some y =>
      have hy2 : y ∈ l2 := List.mem_of_find?_eq_some h2
      have hpy : y.1 = k := by
        have := List.find?_some h2
        simpa using this
      have hxy : x = y := by
        apply List.inj_on_of_nodup_map hnd' hx1 (hp.mem_iff.mpr hy2)
        rw [hpx, hpy]
      rw [hxy]

/-- Lookup in a parsed manifest is invariant under permuting the text's
lines, provided the produced entries carry pairwise distinct filenames. -/
theorem getVal?_parse_perm {t1 t2 : PyStr}
    (hp : (pySplitlines t1).Perm (pySplitlines t2))
    (hnd : (keysOf ((pySplitlines t1).filterMap parseLine)).Nodup) (k : PyStr) :
    getVal? (_parse_checksums t1) k = getVal? (_parse_checksums t2) k := by
  rw [getVal?_parse, getVal?_parse]
  have hpe : ((pySplitlines t1).filterMap parseLine).Perm
      ((pySplitlines t2).filterMap parseLine) := hp.filterMap parseLine
  have hper : ((pySplitlines t1).filterMap parseLine).reverse.Perm
      ((pySplitlines t2).filterMap parseLine).reverse :=
    (List.reverse_perm _).trans (hpe.trans (List.reverse_perm _).symm)
  have hndr : (keysOf ((pySplitlines t1).filterMap parseLine).reverse).Nodup := by
    have : (keysOf ((pySplitlines t1).filterMap parseLine).reverse).Perm
        (keysOf ((pySplitlines t1).filterMap parseLine)) := by
      exact (List.reverse_perm _).map Prod.fst
    exact (this.nodup_iff).mpr hnd
  rw [find?_perm_of_nodup hper hndr k]

/-- Each serialized entry line re-parses to exactly that entry. -/
theorem filterMap_parse_serialized :
    ∀ (m : List (PyStr × PyStr)), (∀ e ∈ m, GoodPair e) →
      (∀ e ∈ m, e.1.head? ≠ some 42) →
      ((m.map fun e => e.2 ++ 32 :: 32 :: e.1).filterMap parseLine) = m := by
  intro m
  induction m with
  | nil => intro _ _; rfl
  | cons e es ih =>
    intro hg hstar
    rw [List.map_cons, List.filterMap_cons]
    rw [parseLine_serialized (hg e (by simp)) (hstar e (by simp))]
    rw [ih (fun x hx => hg x (by simp [hx])) (fun x hx => hstar x (by simp [hx]))]

/-- Re-parsing the serialization of a parsed manifest rebuilds it verbatim,
provided no filename starts with `*`. -/
theorem parse_serializeManifest {m : List (PyStr × PyStr)}
    (hg : ∀ e ∈ m, GoodPair e) (hnd : (keysOf m).Nodup)
    (hstar : ∀ e ∈ m, e.1.head? ≠ some 42) :
    _parse_checksums (serializeManifest m) = m := by
  have hlines : pySplitlines (joinNL (m.map fun e => e.2 ++ 32 :: 32 :: e.1)) =
      m.map fun e => e.2 ++ 32 :: 32 :: e.1 := by
    apply pySplitlines_joinNL
    intro l hl
    obtain ⟨e, he, rfl⟩ := List.mem_map.mp hl
    obtain ⟨fne, dne, fbf, dsf, _, _, _⟩ := hg e he
    constructor
    · cases hd : e.2 with
      | nil => exact absurd hd dne
      | cons a t => simp [hd]
    · intro c hc
      rcases List.mem_append.mp hc with h1 | h1
      · exact not_boundary_of_not_space (dsf c h1)
      · rcases List.mem_cons.mp h1 with h2 | h2
        · subst h2; decide
        · rcases List.mem_cons.mp h2 with h3 | h3
          · subst h3; decide
          · exact fbf c h3
  rw [show serializeManifest m = joinNL (m.map fun e => e.2 ++ 32 :: 32 :: e.1) from rfl]
  rw [parse_eq_buildDict, hlines, filterMap_parse_serialized m hg hstar]
  rw [buildDict_disjoint m [] hnd (by simp [keysOf])]
  simp

/-! ## Digest normalization -/

theorem parse_value_norm {raw k v : PyStr} (h : getVal? (_parse_checksums raw) k = some v) :
    v ≠ [] ∧ SpaceFree v ∧ pyLower v = v := by
  have hg : GoodPair (k, v) := parse_goodPair (getVal?_mem h)
  exact ⟨hg.digest_ne, hg.digest_sf, hg.digest_lower⟩

/-- The sidecar text written after a verified download normalizes back to
the digest that was verified. -/
theorem sidecarText_norm {v : PyStr} (hne : v ≠ []) (hsf : SpaceFree v)
    (hlow : pyLower v = v) : pyLower (pyStrip (sidecarText v)) = v := by
  unfold sidecarText
  rw [pyStrip_spaceFree hsf, hlow]
  rw [pyStrip_append_nl
    (fun c hc => hsf c (by cases v with
      | nil => cases hc
      | cons a t => simp at hc; simp [hc]))
    (fun c hc => hsf c (mem_of_getLast?_eq hc))]
  exact hlow

/-! ## Integrity gate characterization -/

/-- `_is_verified_binary` is `true` exactly when both files are present with
contents and the recomputed digest equals the stored digest up to case,
assuming SHA-256 hex digests are nonempty and lowercase. -/
theorem is_verified_iff {hash : List Nat → PyStr} {binFile : File (List Nat)}
    {scFile : File PyStr}
    (hLower : ∀ b, pyLower (hash b) = hash b) (hNe : ∀ b, hash b ≠ []) :
    _is_verified_binary hash binFile scFile = true ↔
      ∃ contents text, binFile = .present contents ∧ scFile = .present text ∧
        pyLower (hash contents) = pyLower (pyStrip text) := by
  cases binFile with
  | absent =>
    simp only [_is_verified_binary]
    constructor
    · intro h; cases h
    · rintro ⟨c, t, hcon, -, -⟩; cases hcon
  | ioErr =>
    constructor
    · intro h
      exfalso
      cases scFile with
      | absent => cases h
      | ioErr => cases h
      | present text =>
        simp only [_is_verified_binary] at h
        split at h
        · cases h
        · cases h
    · rintro ⟨c, t, hcon, -, -⟩; cases hcon
  | present contents =>
    cases scFile with
    | absent =>
      constructor
      · intro h; cases h
      · rintro ⟨c, t, -, hcon, -⟩; cases hcon
    | ioErr =>
      constructor
      · intro h; cases h
      · rintro ⟨c, t, -, hcon, -⟩; cases hcon
    | present text =>
      simp only [_is_verified_binary]
      split
      · rename_i hemp
        constructor
        · intro h; cases h
        · rintro ⟨c, t, hc, ht, heq⟩
          injection hc with hc
          injection ht with ht
          subst hc; subst ht
          rw [hemp] at heq
          exact absurd (pyLower_eq_nil.mp heq) (hNe _)
      · rename_i hemp
        rw [decide_eq_true_iff]
        constructor
        · intro h
          refine ⟨contents, text, rfl, rfl, ?_⟩
          rw [h, pyLower_idem]
        · rintro ⟨c, t, hc, ht, heq⟩
          injection hc with hc
          injection ht with ht
          subst hc; subst ht
          rw [← heq, hLower]

/-- Any I/O error on either file makes the gate report `false`. -/
theorem is_verified_ioErr {hash : List Nat → PyStr} {binFile : File (List Nat)}
    {scFile : File PyStr} (h : binFile = .ioErr ∨ scFile = .ioErr) :
    _is_verified_binary hash binFile scFile = false := by
  rcases h with h | h
  · subst h
    cases scFile with
    | absent => rfl
    | ioErr => rfl
    | present text =>
      simp only [_is_verified_binary]
      split
      · rfl
      · rfl
  · subst h
    cases binFile with
    | absent => rfl
    | ioErr => rfl
    | present contents => rfl

/-! ## Verified downloader lemmas -/

/-- A successful `_fetch_expected_checksum` returns a nonempty, whitespace-free,
lowercase digest (the parser normalizes digests). -/
theorem fetch_ok_norm {mr : Option PyStr} {binary_name expected : PyStr}
    (h : _fetch_expected_checksum mr binary_name = .ok expected) :
    expected ≠ [] ∧ SpaceFree expected ∧ pyLower expected = expected := by
  unfold _fetch_expected_checksum at h
  cases mr with
  | none => cases h
  | some raw =>
    dsimp only at h
    cases hv : getVal? (_parse_checksums raw) binary_name with
    | none => rw [hv] at h; cases h
    | some v =>
      rw [hv] at h
      dsimp only at h
      split at h
      · cases h
      · injection h with h
        exact h ▸ parse_value_norm hv

/-- Shape of a successful verified download: the platform resolved, the
manifest lookup succeeded, the asset matched the expected digest, and the
resulting filesystem holds the downloaded bytes plus their sidecar. -/
theorem download_ok_shape {hash : List Nat → PyStr} {system machine home version : PyStr}
    {net : Network} {fs : FS} {p : PyStr}
    (h : (download_binary hash system machine home version net fs).result = .ok p) :
    ∃ pl ar ext expected contents,
      get_platform_info system machine = .ok (pl, ar, ext) ∧
      _fetch_expected_checksum net.manifest
        (pyStr "revyl-" ++ pl ++ pyStr "-" ++ ar ++ ext) = .ok expected ∧
      net.asset = some contents ∧
      hash contents = expected ∧
      p = home ++ pyStr "/.revyl/bin/" ++ (pyStr "revyl-" ++ pl ++ pyStr "-" ++ ar ++ ext) ∧
      download_binary hash system machine home version net fs =
        ⟨.ok (home ++ pyStr "/.revyl/bin/" ++ (pyStr "revyl-" ++ pl ++ pyStr "-" ++ ar ++ ext)),
         ⟨.present contents, .present (sidecarText expected), none⟩,
         [Event.fetchManifest (_release_asset_url (pyStr "checksums.txt") version),
          Event.fetchAsset (_release_asset_url
            (pyStr "revyl-" ++ pl ++ pyStr "-" ++ ar ++ ext) version),
          Event.writeTemp contents]
           ++ (if system ≠ pyStr "Windows" then [Event.chmodTemp 0o755] else [])
           ++ [Event.replaceFinal contents, Event.writeSidecar (sidecarText expected)]⟩ := by
  unfold download_binary at h
  generalize hplat : get_platform_info system machine = gp at h
  cases gp with
  | error e => simp at h
  | ok t =>
    obtain ⟨pl, ar, ext⟩ := t
    dsimp only at h
    generalize hfetch : _fetch_expected_checksum net.manifest
        (pyStr "revyl-" ++ pl ++ pyStr "-" ++ ar ++ ext) = fe at h
    cases fe with
    | error e => simp at h
    | ok expected =>
      dsimp only at h
      generalize hasset : net.asset = na at h
      cases na with
      | none => simp at h
      | some contents =>
        dsimp only at h
        split at h
        · simp at h
        · rename_i hmatch
          rw [not_not] at hmatch
          dsimp only at h
          injection h with h
          refine ⟨pl, ar, ext, expected, contents, rfl, hfetch, rfl, hmatch, h.symm, ?_⟩
          unfold download_binary
          rw [hplat]
          dsimp only
          rw [hfetch]
          dsimp only
          rw [hasset]
          dsimp only
          rw [if_neg (by rw [not_not]; exact hmatch)]

/-- After a successful verified download the integrity gate trusts the
resulting files. -/
theorem download_ok_verified {hash : List Nat → PyStr} {system machine home version : PyStr}
    {net : Network} {fs : FS} {p : PyStr}
    (h : (download_binary hash system machine home version net fs).result = .ok p) :
    _is_verified_binary hash
      (download_binary hash system machine home version net fs).fs.final
      (download_binary hash system machine home version net fs).fs.sidecar = true := by
  obtain ⟨pl, ar, ext, expected, contents, -, hfetch, -, hmatch, -, hfs⟩ := download_ok_shape h
  obtain ⟨hne, hsf, hlow⟩ := fetch_ok_norm hfetch
  rw [hfs]
  dsimp only
  simp only [_is_verified_binary]
  rw [sidecarText_norm hne hsf hlow]
  rw [if_neg hne, decide_eq_true_iff]
  exact hmatch

/-- Outcome of a download whose computed digest mismatches the manifest
digest: wrapped `ChecksumMismatch`, temporary file removed, final artifact
and sidecar untouched. -/
theorem download_mismatch {hash : List Nat → PyStr}
    {system machine home version : PyStr} {net : Network} {fs : FS}
    {pl ar ext expected : PyStr} {contents : List Nat}
    (hplat : get_platform_info system machine = .ok (pl, ar, ext))
    (hfetch : _fetch_expected_checksum net.manifest
      (pyStr "revyl-" ++ pl ++ pyStr "-" ++ ar ++ ext) = .ok expected)
    (hasset : net.asset = some contents)
    (hmm : hash contents ≠ expected) :
    download_binary hash system machine home version net fs =
      ⟨.error (.downloadFailed (.checksumMismatch expected (hash contents))),
       { fs with temp := none },
       [Event.fetchManifest (_release_asset_url (pyStr "checksums.txt") version),
        Event.fetchAsset (_release_asset_url
          (pyStr "revyl-" ++ pl ++ pyStr "-" ++ ar ++ ext) version),
        Event.writeTemp contents, Event.unlinkTemp]⟩ := by
  unfold download_binary
  rw [hplat]
  dsimp only
  rw [hfetch]
  dsimp only
  rw [hasset]
  dsimp only
  rw [if_pos hmm]
  simp

/-- Outcome of a download whose fetched manifest has no entry for the
resolved asset name: `ChecksumNotFound`, one manifest fetch, no asset
fetch, filesystem untouched. -/
theorem download_no_entry {hash : List Nat → PyStr}
    {system machine home version : PyStr} {net : Network} {fs : FS}
    {pl ar ext raw : PyStr}
    (hplat : get_platform_info system machine = .ok (pl, ar, ext))
    (hman : net.manifest = some raw)
    (hlook : getVal? (_parse_checksums raw)
      (pyStr "revyl-" ++ pl ++ pyStr "-" ++ ar ++ ext) = none) :
    download_binary hash system machine home version net fs =
      ⟨.error (.checksumNotFound (pyStr "revyl-" ++ pl ++ pyStr "-" ++ ar ++ ext)), fs,
       [Event.fetchManifest (_release_asset_url (pyStr "checksums.txt") version)]⟩ := by
  have hfetch : _fetch_expected_checksum net.manifest
      (pyStr "revyl-" ++ pl ++ pyStr "-" ++ ar ++ ext) =
      .error (.checksumNotFound (pyStr "revyl-" ++ pl ++ pyStr "-" ++ ar ++ ext)) := by
    unfold _fetch_expected_checksum
    rw [hman]
    dsimp only
    rw [hlook]
  unfold download_binary
  rw [hplat]
  dsimp only
  rw [hfetch]

/-- On every failing path of the downloader the final artifact and sidecar
are untouched, and the trace contains no write to the final path. -/
theorem download_error_frame {hash : List Nat → PyStr}
    {system machine home version : PyStr} {net : Network} {fs : FS}
    (h : ∀ p, (download_binary hash system machine home version net fs).result ≠ .ok p) :
    (download_binary hash system machine home version net fs).fs.final = fs.final ∧
    (download_binary hash system machine home version net fs).fs.sidecar = fs.sidecar ∧
    finalWrites (download_binary hash system machine home version net fs).trace = [] := by
  unfold download_binary at h ⊢
  generalize get_platform_info system machine = gp at h ⊢
  cases gp with
  | error e => exact ⟨rfl, rfl, rfl⟩
  | ok t =>
    obtain ⟨pl, ar, ext⟩ := t
    dsimp only at h ⊢
    generalize _fetch_expected_checksum net.manifest
      (pyStr "revyl-" ++ pl ++ pyStr "-" ++ ar ++ ext) = fe at h ⊢
    cases fe with
    | error e => exact ⟨rfl, rfl, rfl⟩
    | ok expected =>
      dsimp only at h ⊢
      generalize net.asset = na at h ⊢
      cases na with
      | none => exact ⟨rfl, rfl, rfl⟩
      | some contents =>
        dsimp only at h ⊢
        split
        · exact ⟨rfl, rfl, rfl⟩
        · rename_i hcond
          exfalso
          rw [if_neg hcond] at h
          exact h _ rfl

/-- The verified downloader never writes asset bytes directly to the final
artifact path. -/
theorem download_no_direct {hash : List Nat → PyStr}
    {system machine home version : PyStr} {net : Network} {fs : FS} (b : List Nat) :
    Event.writeFinalDirect b ∉
      (download_binary hash system machine home version net fs).trace := by
  unfold download_binary
  generalize get_platform_info system machine = gp
  cases gp with
  | error e => simp
  | ok t =>
    obtain ⟨pl, ar, ext⟩ := t
    dsimp only
    generalize _fetch_expected_checksum net.manifest
      (pyStr "revyl-" ++ pl ++ pyStr "-" ++ ar ++ ext) = fe
    cases fe with
    | error e => simp
    | ok expected =>
      dsimp only
      generalize net.asset = na
      cases na with
      | none => simp
      | some contents =>
        dsimp only
        split
        · simp
        · split <;> simp

/-! ## Provisioning facade lemmas -/

/-- When the integrity gate trusts the existing artifact, `ensure_binary`
returns the locator path with no filesystem change and no events at all. -/
theorem ensure_trusted {hash : List Nat → PyStr} {system machine home : PyStr}
    {net : Network} {fs : FS} {bp : PyStr}
    (hbp : get_binary_path home system machine = .ok bp)
    (hg : _is_verified_binary hash fs.final fs.sidecar = true) :
    ensure_binary hash system machine home net fs = ⟨.ok bp, fs, []⟩ := by
  unfold ensure_binary
  rw [hbp]
  dsimp only
  rw [if_pos hg]

/-- When the integrity gate does not trust the existing artifact,
`ensure_binary` is exactly a verified download of the `latest` version. -/
theorem ensure_untrusted {hash : List Nat → PyStr} {system machine home : PyStr}
    {net : Network} {fs : FS} {bp : PyStr}
    (hbp : get_binary_path home system machine = .ok bp)
    (hg : _is_verified_binary hash fs.final fs.sidecar = false) :
    ensure_binary hash system machine home net fs =
      download_binary hash system machine home (pyStr "latest") net fs := by
  unfold ensure_binary
  rw [hbp]
  dsimp only
  rw [if_neg (by rw [hg]; exact Bool.false_ne_true)]

/-- A successful `ensure_binary` leaves a state the integrity gate trusts. -/
theorem ensure_ok_gate {hash : List Nat → PyStr} {system machine home : PyStr}
    {net : Network} {fs : FS} {p : PyStr}
    (h : (ensure_binary hash system machine home net fs).result = .ok p) :
    _is_verified_binary hash (ensure_binary hash system machine home net fs).fs.final
      (ensure_binary hash system machine home net fs).fs.sidecar = true := by
  cases hbp : get_binary_path home system machine with
  | error e =>
    exfalso
    unfold ensure_binary at h
    rw [hbp] at h
    cases h
  | ok bp =>
    cases hg : _is_verified_binary hash fs.final fs.sidecar with
    | true => rw [ensure_trusted hbp hg]; exact hg
    | false =>
      rw [ensure_untrusted hbp hg] at h ⊢
      exact download_ok_verified h

/-- A successful `ensure_binary` resolved the platform. -/
theorem ensure_ok_path {hash : List Nat → PyStr} {system machine home : PyStr}
    {net : Network} {fs : FS} {p : PyStr}
    (h : (ensure_binary hash system machine home net fs).result = .ok p) :
    ∃ bp, get_binary_path home system machine = .ok bp := by
  cases hbp : get_binary_path home system machine with
  | error e =>
    exfalso
    unfold ensure_binary at h
    rw [hbp] at h
    cases h
  | ok bp => exact ⟨bp, rfl⟩

/-- After any successful `ensure_binary`, a second call — against any
network whatsoever — performs no events at all (in particular no network
access): the fast trusted path is taken. -/
theorem ensure_second_idle {hash : List Nat → PyStr} {system machine home : PyStr}
    {net : Network} {fs : FS} {p : PyStr}
    (h : (ensure_binary hash system machine home net fs).result = .ok p) (net2 : Network) :
    (ensure_binary hash system machine home net2
      (ensure_binary hash system machine home net fs).fs).trace = [] := by
  obtain ⟨bp, hbp⟩ := ensure_ok_path h
  rw [ensure_trusted hbp (ensure_ok_gate h)]

/-! ## Platform resolver lemmas -/

/-- The resolver only depends on the lowercased host values. -/
theorem get_platform_info_lower (system machine : PyStr) :
    get_platform_info system machine =
      get_platform_info (pyLower system) (pyLower machine) := by
  unfold get_platform_info
  rw [pyLower_idem, pyLower_idem]

/-- Likewise for the derived asset name. -/
theorem _binary_name_lower (system machine : PyStr) :
    _binary_name system machine = _binary_name (pyLower system) (pyLower machine) := by
  unfold _binary_name
  rw [get_platform_info_lower]

/-! ## Claim theorems -/

/-- C9: For every (host OS name, machine architecture) pair, the Platform
Resolver returns `(os, arch, ext)` with `os` the lowercased system name when
that is one of darwin/linux/windows, `arch = amd64` for machines normalizing
to x86_64/amd64 and `arm64` for machines normalizing to arm64/aarch64, and
`ext = ".exe"` exactly when the OS is windows — the derived release asset
name being `revyl-{os}-{arch}{ext}`; for any other OS name it fails with
`UnsupportedPlatform`, and for a recognized OS with any other machine value
it fails with `UnsupportedArchitecture`.  The resolver is a pure function of
the two host strings: it touches neither the filesystem nor the network
(it takes no `FS` or `Network` argument at all). -/
theorem claim_C9 (system machine : PyStr) :
    ((pyLower system = pyStr "darwin" ∨ pyLower system = pyStr "linux" ∨
        pyLower system = pyStr "windows") →
      ((pyLower machine = pyStr "x86_64" ∨ pyLower machine = pyStr "amd64") →
        get_platform_info system machine =
          .ok (pyLower system, pyStr "amd64",
            if pyLower system = pyStr "windows" then pyStr ".exe" else pyStr "") ∧
        _binary_name system machine =
          .ok (pyStr "revyl-" ++ pyLower system ++ pyStr "-" ++ pyStr "amd64" ++
            if pyLower system = pyStr "windows" then pyStr ".exe" else pyStr "")) ∧
      ((pyLower machine = pyStr "arm64" ∨ pyLower machine = pyStr "aarch64") →
        get_platform_info system machine =
          .ok (pyLower system, pyStr "arm64",
            if pyLower system = pyStr "windows" then pyStr ".exe" else pyStr "") ∧
        _binary_name system machine =
          .ok (pyStr "revyl-" ++ pyLower system ++ pyStr "-" ++ pyStr "arm64" ++
            if pyLower system = pyStr "windows" then pyStr ".exe" else pyStr ""))) ∧
    (¬(pyLower system = pyStr "darwin" ∨ pyLower system = pyStr "linux" ∨
        pyLower system = pyStr "windows") →
      get_platform_info system machine = .error (.unsupportedPlatform (pyLower system))) ∧
    ((pyLower system = pyStr "darwin" ∨ pyLower system = pyStr "linux" ∨
        pyLower system = pyStr "windows") →
      ¬(pyLower machine = pyStr "x86_64" ∨ pyLower machine = pyStr "amd64" ∨
        pyLower machine = pyStr "arm64" ∨ pyLower machine = pyStr "aarch64") →
      get_platform_info system machine = .error (.unsupportedArchitecture (pyLower machine))) := by
  refine ⟨fun hs => ⟨fun hm => ?_, fun hm => ?_⟩, fun hs => ?_, fun hs hm => ?_⟩
  · rcases hs with hs | hs | hs <;> rcases hm with hm | hm <;>
      rw [get_platform_info_lower, _binary_name_lower, hs, hm] <;>
      exact ⟨by decide, by decide⟩
  · rcases hs with hs | hs | hs <;> rcases hm with hm | hm <;>
      rw [get_platform_info_lower, _binary_name_lower, hs, hm] <;>
      exact ⟨by decide, by decide⟩
  · push_neg at hs
    unfold get_platform_info
    dsimp only
    rw [if_neg hs.1, if_neg hs.2.1, if_neg hs.2.2]
  · push_neg at hm
    have harch : ∀ pstr ex : PyStr,
        (match (if pyLower machine = pyStr "x86_64" ∨ pyLower machine = pyStr "amd64"
            then Except.ok (pyStr "amd64")
          else if pyLower machine = pyStr "arm64" ∨ pyLower machine = pyStr "aarch64"
            then Except.ok (pyStr "arm64")
          else Except.error (Err.unsupportedArchitecture (pyLower machine)) :
            Except Err PyStr) with
        | Except.error e => Except.error e
        | Except.ok arch_str => Except.ok (pstr, arch_str, ex)) =
        (Except.error (Err.unsupportedArchitecture (pyLower machine)) :
          Except Err (PyStr × PyStr × PyStr)) := by
      intro pstr ex
      rw [if_neg (fun hc => hc.elim hm.1 hm.2.1),
          if_neg (fun hc => hc.elim hm.2.2.1 hm.2.2.2)]
    rcases hs with hs | hs | hs
    · unfold get_platform_info
      dsimp only
      rw [hs, if_pos rfl]
      exact harch _ _
    · unfold get_platform_info
      dsimp only
      rw [hs, if_neg (by decide), if_pos rfl]
      exact harch _ _
    · unfold get_platform_info
      dsimp only
      rw [hs, if_neg (by decide), if_neg (by decide), if_pos rfl]
      exact harch _ _

/-- Closed witness for C9: `("Darwin", "ARM64")` resolves to
`(darwin, arm64, "")` with asset name `revyl-darwin-arm64`. -/
theorem claim_C9_witness :
    get_platform_info (pyStr "Darwin") (pyStr "ARM64") =
      .ok (pyStr "darwin", pyStr "arm64", pyStr "") ∧
    _binary_name (pyStr "Darwin") (pyStr "ARM64") = .ok (pyStr "revyl-darwin-arm64") := by
  have h := (claim_C9 (pyStr "Darwin") (pyStr "ARM64")).1 (by decide) |>.2 (by decide)
  refine ⟨?_, ?_⟩
  · rw [h.1]
    decide
  · rw [h.2]
    decide

/-- C8: For every filesystem state the Integrity Gate check is total — it is
a total function into `Bool`, never an exception (I/O errors are explicit
`File.ioErr` states): it returns `true` iff the binary and its sidecar both
exist with readable contents and the recomputed full-content SHA-256 digest
of the binary equals the sidecar's stored digest under case-insensitive
comparison, and it returns `false` whenever an I/O error occurs reading
either file.  The SHA-256 model is constrained to produce nonempty
lowercase digests, as `hashlib.sha256().hexdigest()` does. -/
theorem claim_C8 (hash : List Nat → PyStr) (binFile : File (List Nat)) (scFile : File PyStr)
    (hLower : ∀ b, pyLower (hash b) = hash b) (hNe : ∀ b, hash b ≠ []) :
    (_is_verified_binary hash binFile scFile = true ↔
      ∃ contents text, binFile = .present contents ∧ scFile = .present text ∧
        pyLower (hash contents) = pyLower (pyStrip text)) ∧
    (binFile = .ioErr ∨ scFile = .ioErr → _is_verified_binary hash binFile scFile = false) :=
  ⟨is_verified_iff hLower hNe, is_verified_ioErr⟩

/-- Closed witness for C8: a digest match that differs only in case is
trusted; an unreadable binary is not trusted. -/
theorem claim_C8_witness :
    _is_verified_binary (fun _ => pyStr "aa") (.present [1]) (.present (pyStr "AA\n")) = true ∧
    _is_verified_binary (fun _ => pyStr "aa") .ioErr (.present (pyStr "aa\n")) = false := by
  have h1 := claim_C8 (fun _ => pyStr "aa") (.present [1]) (.present (pyStr "AA\n"))
    (fun _ => (by decide : pyLower (pyStr "aa") = pyStr "aa"))
    (fun _ => (by decide : pyStr "aa" ≠ []))
  have h2 := claim_C8 (fun _ => pyStr "aa") .ioErr (.present (pyStr "aa\n"))
    (fun _ => (by decide : pyLower (pyStr "aa") = pyStr "aa"))
    (fun _ => (by decide : pyStr "aa" ≠ []))
  exact ⟨h1.1.mpr ⟨[1], pyStr "AA\n", rfl, rfl, by decide⟩, h2.2 (Or.inl rfl)⟩

/-- C6: For every manifest text and every line of it, the parser produces no
entry from a line that is blank, starts with `#`, or does not consist of
exactly two whitespace-separated tokens after normalization (where
normalization strips surrounding whitespace and the filename's leading `*`,
so a line whose second token normalizes to the empty filename also yields
no entry); from each remaining line it produces the entry
`normalized filename ↦ lowercased digest`; and a repeated filename resolves
to the digest of its last occurrence. -/
theorem claim_C6 :
    (∀ rawLine : PyStr,
      (pyStrip rawLine = [] ∨ (pyStrip rawLine).head? = some 35 ∨
        ¬(∃ d f, pySplit1 (pyStrip rawLine) = [d, f] ∧ pyStrip (pyLstripStar f) ≠ [])) →
      parseLine rawLine = none) ∧
    (∀ rawLine d f : PyStr,
      pyStrip rawLine ≠ [] → (pyStrip rawLine).head? ≠ some 35 →
      pySplit1 (pyStrip rawLine) = [d, f] → pyStrip (pyLstripStar f) ≠ [] →
      parseLine rawLine = some (pyStrip (pyLstripStar f), pyLower (pyStrip d))) ∧
    (∀ raw k : PyStr,
      getVal? (_parse_checksums raw) k =
        (((pySplitlines raw).filterMap parseLine).reverse.find?
          (fun e => e.1 == k)).map Prod.snd) := by
  refine ⟨?_, ?_, ?_⟩
  · intro rawLine h
    rcases h with h | h | h
    · exact parseLine_blank h
    · exact parseLine_comment h
    · by_cases h2 : ∃ d f, pySplit1 (pyStrip rawLine) = [d, f]
      · obtain ⟨d, f, hdf⟩ := h2
        by_cases h3 : pyStrip (pyLstripStar f) = []
        · exact parseLine_empty_fname hdf h3
        · exact absurd ⟨d, f, hdf, h3⟩ h
      · exact parseLine_not_two (fun d f hdf => h2 ⟨d, f, hdf⟩)
  · intro rawLine d f h1 h2 h3 h4
    exact parseLine_some h1 h2 h3 h4
  · intro raw k
    exact getVal?_parse raw k

/-- Closed witness for C6: a comment line yields nothing, a well-formed line
yields its normalized entry, and a duplicated filename takes the last
digest. -/
theorem claim_C6_witness :
    parseLine (pyStr "# comment") = none ∧
    parseLine (pyStr "  DEADBEEF  *revyl-linux-amd64  ") =
      some (pyStr "revyl-linux-amd64", pyStr "deadbeef") ∧
    getVal? (_parse_checksums (pyStr "aa  f\nbb  f")) (pyStr "f") = some (pyStr "bb") := by
  refine ⟨claim_C6.1 (pyStr "# comment") (Or.inr (Or.inl (by decide))), ?_, ?_⟩
  · have h := claim_C6.2.1 (pyStr "  DEADBEEF  *revyl-linux-amd64  ")
      (pyStr "DEADBEEF") (pyStr "*revyl-linux-amd64")
      (by decide) (by decide) (by decide) (by decide)
    rw [h]
    decide
  · rw [claim_C6.2.2 (pyStr "aa  f\nbb  f") (pyStr "f")]
    decide

/-- Counterexample for C7 as stated: parsing is not idempotent under
re-serialization.  The text `"dead **  *abc"` parses to the mapping
`{"*abc" ↦ "dead"}` (the filename keeps a leading `*` because `lstrip("*")`
runs before `strip()`), its serialization `"dead  *abc"` re-parses to
`{"abc" ↦ "dead"}`, and the two mappings disagree at `"*abc"`. -/
theorem claim_C7_counterexample :
    getVal? (_parse_checksums (serializeManifest (_parse_checksums (pyStr "dead **  *abc"))))
      (pyStr "*abc") ≠
    getVal? (_parse_checksums (pyStr "dead **  *abc")) (pyStr "*abc") := by decide

/-- C7 (amended): line-permutation invariance holds as stated: two texts
whose lines are permutations of each other and whose well-formed lines
carry pairwise distinct filenames parse to the same mapping.  Idempotence
holds under the restriction the counterexample forces: when no parsed
filename begins with `*`, re-parsing a serialization of the parser's output
yields the output verbatim. -/
theorem claim_C7_amended :
    (∀ t1 t2 k : PyStr, (pySplitlines t1).Perm (pySplitlines t2) →
      (keysOf ((pySplitlines t1).filterMap parseLine)).Nodup →
      getVal? (_parse_checksums t1) k = getVal? (_parse_checksums t2) k) ∧
    (∀ t : PyStr, (∀ e ∈ _parse_checksums t, e.1.head? ≠ some 42) →
      _parse_checksums (serializeManifest (_parse_checksums t)) = _parse_checksums t) := by
  refine ⟨fun t1 t2 k hp hnd => getVal?_parse_perm hp hnd k, fun t hstar => ?_⟩
  exact parse_serializeManifest (fun e he => parse_goodPair he) (parse_keys_nodup t) hstar

/-- Closed witness for C7 (amended): swapping two distinct-filename lines
preserves lookups, and a `*`-free manifest round-trips verbatim. -/
theorem claim_C7_witness :
    getVal? (_parse_checksums (pyStr "aa  f1\nbb  f2")) (pyStr "f1") =
      getVal? (_parse_checksums (pyStr "bb  f2\naa  f1")) (pyStr "f1") ∧
    _parse_checksums (serializeManifest (_parse_checksums (pyStr "aa  f1\nbb  f2"))) =
      _parse_checksums (pyStr "aa  f1\nbb  f2") := by
  constructor
  · exact claim_C7_amended.1 (pyStr "aa  f1\nbb  f2") (pyStr "bb  f2\naa  f1") (pyStr "f1")
      (by decide) (by decide)
  · exact claim_C7_amended.2 (pyStr "aa  f1\nbb  f2") (by decide)

/-- Counterexample for C1 as stated: the claim quantifies over every
download of the binary asset, but the package's top-level legacy
`download_binary` (`revyl/__init__.py` lines 74-110) streams the asset
bytes directly to the final artifact path via
`urllib.request.urlretrieve(url, binary_path)` — no temporary file, no
checksum manifest, no atomic rename — and succeeds doing so. -/
theorem claim_C1_counterexample :
    Event.writeFinalDirect [1, 2] ∈
      (Legacy.download_binary (pyStr "Linux") (pyStr "x86_64") (pyStr "/home/user")
        (pyStr "latest") ⟨none, some [1, 2]⟩ ⟨.absent, .absent, none⟩).trace ∧
    (Legacy.download_binary (pyStr "Linux") (pyStr "x86_64") (pyStr "/home/user")
      (pyStr "latest") ⟨none, some [1, 2]⟩ ⟨.absent, .absent, none⟩).result =
      .ok (pyStr "/home/user/.revyl/bin/revyl-linux-amd64") := by
  exact ⟨by decide, by decide⟩

/-- C1 (amended): restricted to the verified downloader
(`revyl/_binary.py`'s `download_binary`), the claim holds: asset bytes are
never written directly to the final artifact path; on success the only
write to the final path in the whole trace is the single atomic rename of
the fully downloaded temporary file, whose bytes are exactly the fetched
asset and whose digest equals the manifest digest; and on every failure the
final path sees no write at all and its file is unchanged. -/
theorem claim_C1_amended (hash : List Nat → PyStr) (system machine home version : PyStr)
    (net : Network) (fs : FS) :
    (∀ b, Event.writeFinalDirect b ∉
      (download_binary hash system machine home version net fs).trace) ∧
    ((∃ p, (download_binary hash system machine home version net fs).result = .ok p) →
      ∃ contents expected,
        net.asset = some contents ∧ hash contents = expected ∧
        (∃ pl ar ext, get_platform_info system machine = .ok (pl, ar, ext) ∧
          _fetch_expected_checksum net.manifest
            (pyStr "revyl-" ++ pl ++ pyStr "-" ++ ar ++ ext) = .ok expected) ∧
        (download_binary hash system machine home version net fs).fs.final =
          .present contents ∧
        finalWrites (download_binary hash system machine home version net fs).trace =
          [Event.replaceFinal contents]) ∧
    ((∀ p, (download_binary hash system machine home version net fs).result ≠ .ok p) →
      (download_binary hash system machine home version net fs).fs.final = fs.final ∧
      finalWrites (download_binary hash system machine home version net fs).trace = []) := by
  refine ⟨download_no_direct, ?_, fun h => ⟨(download_error_frame h).1,
    (download_error_frame h).2.2⟩⟩
  rintro ⟨p, hp⟩
  obtain ⟨pl, ar, ext, expected, contents, hplat, hfetch, hasset, hmatch, -, hres⟩ :=
    download_ok_shape hp
  refine ⟨contents, expected, hasset, hmatch, ⟨pl, ar, ext, hplat, hfetch⟩, ?_, ?_⟩
  · rw [hres]
  · rw [hres]
    by_cases hw : system ≠ pyStr "Windows" <;>
      simp [hw, finalWrites, isFinalWrite, List.filter_append]

/-- Closed witness for C1 (amended): in a successful verified download the
only write to the final artifact path is the atomic rename of the
downloaded bytes. -/
theorem claim_C1_witness :
    finalWrites ((download_binary (fun _ => pyStr "aa") (pyStr "Linux") (pyStr "x86_64")
      (pyStr "/h") (pyStr "latest") ⟨some (pyStr "aa  revyl-linux-amd64"), some [1, 2]⟩
      ⟨.absent, .absent, none⟩).trace) = [Event.replaceFinal [1, 2]] := by
  have h := (claim_C1_amended (fun _ => pyStr "aa") (pyStr "Linux") (pyStr "x86_64")
    (pyStr "/h") (pyStr "latest") ⟨some (pyStr "aa  revyl-linux-amd64"), some [1, 2]⟩
    ⟨.absent, .absent, none⟩).2.1 ⟨pyStr "/h/.revyl/bin/revyl-linux-amd64", by decide⟩
  obtain ⟨contents, expected, hasset, -, -, -, hfw⟩ := h
  have h2 : some ([1, 2] : List Nat) = some contents := hasset
  injection h2 with h2
  rw [hfw, ← h2]

/-- C2: Every successful run of the verified downloader leaves at the final
artifact path a file whose SHA-256 digest equals the digest stored in the
sidecar (the sidecar holding that digest plus a trailing newline), and the
Integrity Gate applied to the resulting files reports trusted. -/
theorem claim_C2 (hash : List Nat → PyStr) (system machine home version : PyStr)
    (net : Network) (fs : FS) (p : PyStr)
    (h : (download_binary hash system machine home version net fs).result = .ok p) :
    ∃ contents storedDigest,
      (download_binary hash system machine home version net fs).fs.final =
        .present contents ∧
      (download_binary hash system machine home version net fs).fs.sidecar =
        .present (storedDigest ++ [10]) ∧
      hash contents = storedDigest ∧
      _is_verified_binary hash
        (download_binary hash system machine home version net fs).fs.final
        (download_binary hash system machine home version net fs).fs.sidecar = true := by
  obtain ⟨pl, ar, ext, expected, contents, -, hfetch, -, hmatch, -, hres⟩ :=
    download_ok_shape h
  obtain ⟨hne, hsf, hlow⟩ := fetch_ok_norm hfetch
  have hsc : sidecarText expected = expected ++ [10] := by
    unfold sidecarText
    rw [pyStrip_spaceFree hsf, hlow]
  refine ⟨contents, expected, ?_, ?_, hmatch, download_ok_verified h⟩
  · rw [hres]
  · rw [hres]
    show File.present (sidecarText expected) = File.present (expected ++ [10])
    rw [hsc]

/-- Closed witness for C2: a concrete successful download is trusted by the
gate immediately afterwards. -/
theorem claim_C2_witness :
    _is_verified_binary (fun _ => pyStr "aa")
      (download_binary (fun _ => pyStr "aa") (pyStr "Linux") (pyStr "x86_64") (pyStr "/h")
        (pyStr "latest") ⟨some (pyStr "aa  revyl-linux-amd64"), some [1, 2]⟩
        ⟨.absent, .absent, none⟩).fs.final
      (download_binary (fun _ => pyStr "aa") (pyStr "Linux") (pyStr "x86_64") (pyStr "/h")
        (pyStr "latest") ⟨some (pyStr "aa  revyl-linux-amd64"), some [1, 2]⟩
        ⟨.absent, .absent, none⟩).fs.sidecar = true := by
  obtain ⟨c, d, -, -, -, hg⟩ := claim_C2 (fun _ => pyStr "aa") (pyStr "Linux")
    (pyStr "x86_64") (pyStr "/h") (pyStr "latest")
    ⟨some (pyStr "aa  revyl-linux-amd64"), some [1, 2]⟩ ⟨.absent, .absent, none⟩
    (pyStr "/h/.revyl/bin/revyl-linux-amd64") (by decide)
  exact hg

/-- Counterexample for C3 as stated: the claim quantifies over the ensure
operation, but the package's top-level legacy `ensure_binary`
(`revyl/__init__.py` lines 113-125) checks mere existence, not the
Integrity Gate: given an existing binary whose sidecar file is missing it
returns the path immediately — no fresh verified download, nothing
overwritten, no events at all. -/
theorem claim_C3_counterexample :
    (Legacy.ensure_binary (pyStr "Linux") (pyStr "x86_64") (pyStr "/h")
      ⟨some (pyStr "aa  revyl-linux-amd64"), some [1, 2]⟩
      ⟨.present [9], .absent, none⟩).result =
      .ok (pyStr "/h/.revyl/bin/revyl-linux-amd64") ∧
    (Legacy.ensure_binary (pyStr "Linux") (pyStr "x86_64") (pyStr "/h")
      ⟨some (pyStr "aa  revyl-linux-amd64"), some [1, 2]⟩
      ⟨.present [9], .absent, none⟩).trace = [] ∧
    (Legacy.ensure_binary (pyStr "Linux") (pyStr "x86_64") (pyStr "/h")
      ⟨some (pyStr "aa  revyl-linux-amd64"), some [1, 2]⟩
      ⟨.present [9], .absent, none⟩).fs = ⟨.present [9], .absent, none⟩ := by
  exact ⟨by decide, by decide, by decide⟩

/-- C3 (amended): restricted to the provisioning facade of
`revyl/_binary.py` (`ensure_binary`), the claim holds: when the Integrity
Gate trusts the files, the locator-computed path is returned with no events
(hence no network access); otherwise — including an existing binary with a
missing sidecar, where the gate reports untrusted — the call is exactly a
fresh verified download for the `latest` version, which on success
overwrites both the binary and its sidecar; and after any successful call a
second call performs no events against any network. -/
theorem claim_C3_amended (hash : List Nat → PyStr) (system machine home : PyStr)
    (net : Network) (fs : FS) :
    (∀ bp, get_binary_path home system machine = .ok bp →
      _is_verified_binary hash fs.final fs.sidecar = true →
      ensure_binary hash system machine home net fs = ⟨.ok bp, fs, []⟩) ∧
    (∀ bp, get_binary_path home system machine = .ok bp →
      _is_verified_binary hash fs.final fs.sidecar = false →
      ensure_binary hash system machine home net fs =
        download_binary hash system machine home (pyStr "latest") net fs) ∧
    (∀ p, (ensure_binary hash system machine home net fs).result = .ok p →
      _is_verified_binary hash fs.final fs.sidecar = false →
      ∃ contents expected,
        net.asset = some contents ∧
        (ensure_binary hash system machine home net fs).fs.final = .present contents ∧
        (ensure_binary hash system machine home net fs).fs.sidecar =
          .present (sidecarText expected)) ∧
    (∀ p, (ensure_binary hash system machine home net fs).result = .ok p →
      ∀ net2, (ensure_binary hash system machine home net2
        (ensure_binary hash system machine home net fs).fs).trace = []) := by
  refine ⟨fun bp hbp hg => ensure_trusted hbp hg,
    fun bp hbp hg => ensure_untrusted hbp hg, ?_, fun p h => ensure_second_idle h⟩
  intro p h hg
  obtain ⟨bp, hbp⟩ := ensure_ok_path h
  rw [ensure_untrusted hbp hg] at h ⊢
  obtain ⟨pl, ar, ext, expected, contents, -, -, hasset, -, -, hres⟩ := download_ok_shape h
  refine ⟨contents, expected, hasset, ?_, ?_⟩
  · rw [hres]
  · rw [hres]

/-- Closed witness for C3 (amended): the spec scenario — an existing binary
with digest `d1` but no sidecar — triggers a fresh verified download that
overwrites both files, and the next call (even with no network at all)
performs no events. -/
theorem claim_C3_witness :
    (ensure_binary (fun _ => pyStr "aa") (pyStr "Linux") (pyStr "x86_64") (pyStr "/h")
      ⟨some (pyStr "aa  revyl-linux-amd64"), some [1, 2]⟩
      ⟨.present [9], .absent, none⟩).fs.final = .present [1, 2] ∧
    (ensure_binary (fun _ => pyStr "aa") (pyStr "Linux") (pyStr "x86_64") (pyStr "/h")
      ⟨none, none⟩
      (ensure_binary (fun _ => pyStr "aa") (pyStr "Linux") (pyStr "x86_64") (pyStr "/h")
        ⟨some (pyStr "aa  revyl-linux-amd64"), some [1, 2]⟩
        ⟨.present [9], .absent, none⟩).fs).trace = [] := by
  have hc := claim_C3_amended (fun _ => pyStr "aa") (pyStr "Linux") (pyStr "x86_64")
    (pyStr "/h") ⟨some (pyStr "aa  revyl-linux-amd64"), some [1, 2]⟩
    ⟨.present [9], .absent, none⟩
  constructor
  · obtain ⟨contents, expected, hasset, hfin, -⟩ :=
      hc.2.2.1 (pyStr "/h/.revyl/bin/revyl-linux-amd64") (by decide) (by decide)
    have h2 : some ([1, 2] : List Nat) = some contents := hasset
    injection h2 with h2
    rw [hfin, ← h2]
  · exact hc.2.2.2 (pyStr "/h/.revyl/bin/revyl-linux-amd64") (by decide) ⟨none, none⟩

/-- C4: A download whose computed digest differs from the manifest's
expected digest fails with `ChecksumMismatch` (wrapped, as in the source,
into the "Failed to download binary" `RuntimeError`), the temporary file is
deleted, and the final artifact path is unchanged: absent stays absent and
existing contents stay identical (likewise the sidecar). -/
theorem claim_C4 (hash : List Nat → PyStr) (system machine home version : PyStr)
    (net : Network) (fs : FS) (pl ar ext expected : PyStr) (contents : List Nat)
    (hplat : get_platform_info system machine = .ok (pl, ar, ext))
    (hfetch : _fetch_expected_checksum net.manifest
      (pyStr "revyl-" ++ pl ++ pyStr "-" ++ ar ++ ext) = .ok expected)
    (hasset : net.asset = some contents)
    (hmm : hash contents ≠ expected) :
    download_binary hash system machine home version net fs =
      ⟨.error (.downloadFailed (.checksumMismatch expected (hash contents))),
       { fs with temp := none },
       [Event.fetchManifest (_release_asset_url (pyStr "checksums.txt") version),
        Event.fetchAsset (_release_asset_url
          (pyStr "revyl-" ++ pl ++ pyStr "-" ++ ar ++ ext) version),
        Event.writeTemp contents, Event.unlinkTemp]⟩ ∧
    (download_binary hash system machine home version net fs).fs.final = fs.final ∧
    (download_binary hash system machine home version net fs).fs.sidecar = fs.sidecar ∧
    (download_binary hash system machine home version net fs).fs.temp = none := by
  refine ⟨download_mismatch hplat hfetch hasset hmm, ?_, ?_, ?_⟩ <;>
    rw [download_mismatch hplat hfetch hasset hmm]

/-- Closed witness for C4: a mismatching asset leaves the pre-existing
binary and sidecar exactly as they were and removes the temporary file. -/
theorem claim_C4_witness :
    download_binary (fun _ => pyStr "aa") (pyStr "Linux") (pyStr "x86_64") (pyStr "/h")
      (pyStr "latest") ⟨some (pyStr "bb  revyl-linux-amd64"), some [1, 2]⟩
      ⟨.present [7], .present (pyStr "xx\n"), none⟩ =
      ⟨.error (.downloadFailed (.checksumMismatch (pyStr "bb") (pyStr "aa"))),
       ⟨.present [7], .present (pyStr "xx\n"), none⟩,
       [Event.fetchManifest
          (pyStr "https://github.com/RevylAI/revyl-cli/releases/latest/download/checksums.txt"),
        Event.fetchAsset
          (pyStr "https://github.com/RevylAI/revyl-cli/releases/latest/download/revyl-linux-amd64"),
        Event.writeTemp [1, 2], Event.unlinkTemp]⟩ := by
  have h := (claim_C4 (fun _ => pyStr "aa") (pyStr "Linux") (pyStr "x86_64") (pyStr "/h")
    (pyStr "latest") ⟨some (pyStr "bb  revyl-linux-amd64"), some [1, 2]⟩
    ⟨.present [7], .present (pyStr "xx\n"), none⟩
    (pyStr "linux") (pyStr "amd64") (pyStr "") (pyStr "bb") [1, 2]
    (by decide) (by decide) (by decide) (by decide)).1
  rw [h]
  decide

/-- C5: When the fetched manifest has no entry for the resolved asset name,
the download fails with `ChecksumNotFound`, the filesystem is untouched,
and the whole trace is the single manifest fetch — so no network fetch of
the asset is ever attempted and the manifest lookup strictly precedes any
asset download. -/
theorem claim_C5 (hash : List Nat → PyStr) (system machine home version : PyStr)
    (net : Network) (fs : FS) (pl ar ext raw : PyStr)
    (hplat : get_platform_info system machine = .ok (pl, ar, ext))
    (hman : net.manifest = some raw)
    (hlook : getVal? (_parse_checksums raw)
      (pyStr "revyl-" ++ pl ++ pyStr "-" ++ ar ++ ext) = none) :
    download_binary hash system machine home version net fs =
      ⟨.error (.checksumNotFound (pyStr "revyl-" ++ pl ++ pyStr "-" ++ ar ++ ext)), fs,
       [Event.fetchManifest (_release_asset_url (pyStr "checksums.txt") version)]⟩ ∧
    (∀ u, Event.fetchAsset u ∉
      (download_binary hash system machine home version net fs).trace) := by
  refine ⟨download_no_entry hplat hman hlook, fun u => ?_⟩
  rw [download_no_entry hplat hman hlook]
  simp

/-- Closed witness for C5, the spec's scenario: manifest
`"deadbeef  revyl-other-binary"` only, asset `revyl-linux-amd64` → abort
with `ChecksumNotFound` after the manifest fetch alone. -/
theorem claim_C5_witness :
    download_binary (fun _ => pyStr "aa") (pyStr "Linux") (pyStr "x86_64") (pyStr "/h")
      (pyStr "latest") ⟨some (pyStr "deadbeef  revyl-other-binary\n"), some [1, 2]⟩
      ⟨.absent, .absent, none⟩ =
      ⟨.error (.checksumNotFound (pyStr "revyl-linux-amd64")), ⟨.absent, .absent, none⟩,
       [Event.fetchManifest
          (pyStr "https://github.com/RevylAI/revyl-cli/releases/latest/download/checksums.txt")]⟩ := by
  have h := (claim_C5 (fun _ => pyStr "aa") (pyStr "Linux") (pyStr "x86_64") (pyStr "/h")
    (pyStr "latest") ⟨some (pyStr "deadbeef  revyl-other-binary\n"), some [1, 2]⟩
    ⟨.absent, .absent, none⟩ (pyStr "linux") (pyStr "amd64") (pyStr "")
    (pyStr "deadbeef  revyl-other-binary\n") (by decide) (by decide) (by decide)).1
  rw [h]
  decide

/-- Counterexample for C10 as stated: in the package's top-level legacy
`main` (`revyl/__init__.py` lines 128-152) the provisioning call sits in a
`try` that catches only `RuntimeError`, so a user interrupt during
provisioning/download escapes as an unhandled exception (modelled as exit
code `none`) instead of yielding exit status 130. -/
theorem claim_C10_counterexample :
    Legacy.main EnsureOutcome.interrupted (RunOutcome.completed 0) =
      ⟨none, false, false⟩ := by decide

/-- C10 (amended): restricted to the entry point of `revyl/_binary.py`
(`main`, modelled as `main_entry`), the claim holds: a completed wrapped
binary's exit status is returned unmodified; a user interrupt at any point
— during provisioning/download or while the binary runs — yields exit
status 130; every provisioning/download/runtime error (a `RuntimeError`,
which is what every provisioning and download failure raises) yields exit
status 1 with a diagnostic on standard error and the manual-download
release-page pointer; any other exception while running the binary yields
exit status 1 with a diagnostic (but no pointer). -/
theorem claim_C10_amended :
    (∀ p code, main_entry (.provisioned p) (.completed code) = ⟨some code, false, false⟩) ∧
    (∀ r, main_entry .interrupted r = ⟨some 130, false, false⟩) ∧
    (∀ p, main_entry (.provisioned p) .interrupted = ⟨some 130, false, false⟩) ∧
    (∀ e r, main_entry (.err e) r = ⟨some 1, true, true⟩) ∧
    (∀ p, main_entry (.provisioned p) .failed = ⟨some 1, true, false⟩) :=
  ⟨fun _ _ => rfl, fun _ => rfl, fun _ => rfl, fun _ _ => rfl, fun _ => rfl⟩

/-- Closed witness for C10 (amended): a completed wrapped binary's exit
status is passed through unmodified. -/
theorem claim_C10_witness :
    main_entry (.provisioned (pyStr "/h/.revyl/bin/revyl-linux-amd64")) (.completed 7) =
      ⟨some 7, false, false⟩ :=
  claim_C10_amended.1 (pyStr "/h/.revyl/bin/revyl-linux-amd64") 7
